import Mathlib

/-!
Verification of the SCRU64 identifier codec and generator (scru64/javascript).

The definitions below are a shallow embedding of `src/index.ts` (the v1.0.0
revision, which matches the built `dist/index.js`): JavaScript numbers are
modelled as `Nat` on the nonnegative-integer domain that the claims concern
(`ℚ` where fractional or negative inputs are observable, as in
`Scru64Id.fromParts`), byte arrays as `List Nat` with entries `< 256`, thrown
exceptions as `Option`/`Except`/result values, and the generator's mutable
fields as explicit state passing.
-/

/-- The maximum valid value (i.e., `zzzzzzzzzzzz`), as 8 big-endian bytes. -/
def MAX_SCRU64_BYTES : List Nat := [65, 194, 28, 184, 224, 255, 255, 255]

/-- The total size in bits of the `nodeId` and `counter` fields. -/
def NODE_CTR_SIZE : Nat := 24

/-- The maximum valid value of the `timestamp` field (`(36 ^ 12 - 1) >>> 24`). -/
def MAX_TIMESTAMP : Nat := 282429536480

/-- The maximum valid value of the combined `nodeCtr` field (`2 ^ 24 - 1`). -/
def MAX_NODE_CTR : Nat := 16777215

/-- Digit characters used in the Base36 notation. -/
def DIGITS : List Char := ("0123456789abcdefghijklmnopqrstuvwxyz").toList

/-- An O(1) map from ASCII code points to Base36 digit values (`0x7f` marks an
invalid character). -/
def DECODE_MAP : List Nat := [
  0x7f, 0x7f, 0x7f, 0x7f, 0x7f, 0x7f, 0x7f, 0x7f, 0x7f, 0x7f, 0x7f, 0x7f, 0x7f,
  0x7f, 0x7f, 0x7f, 0x7f, 0x7f, 0x7f, 0x7f, 0x7f, 0x7f, 0x7f, 0x7f, 0x7f, 0x7f,
  0x7f, 0x7f, 0x7f, 0x7f, 0x7f, 0x7f, 0x7f, 0x7f, 0x7f, 0x7f, 0x7f, 0x7f, 0x7f,
  0x7f, 0x7f, 0x7f, 0x7f, 0x7f, 0x7f, 0x7f, 0x7f, 0x7f, 0x00, 0x01, 0x02, 0x03,
  0x04, 0x05, 0x06, 0x07, 0x08, 0x09, 0x7f, 0x7f, 0x7f, 0x7f, 0x7f, 0x7f, 0x7f,
  0x0a, 0x0b, 0x0c, 0x0d, 0x0e, 0x0f, 0x10, 0x11, 0x12, 0x13, 0x14, 0x15, 0x16,
  0x17, 0x18, 0x19, 0x1a, 0x1b, 0x1c, 0x1d, 0x1e, 0x1f, 0x20, 0x21, 0x22, 0x23,
  0x7f, 0x7f, 0x7f, 0x7f, 0x7f, 0x7f, 0x0a, 0x0b, 0x0c, 0x0d, 0x0e, 0x0f, 0x10,
  0x11, 0x12, 0x13, 0x14, 0x15, 0x16, 0x17, 0x18, 0x19, 0x1a, 0x1b, 0x1c, 0x1d,
  0x1e, 0x1f, 0x20, 0x21, 0x22, 0x23, 0x7f, 0x7f, 0x7f, 0x7f, 0x7f]

/-- Value of a big-endian digit list in base `β` (the accumulator loop
`acc = acc * β + digit` shared by `subUint` and the chunk folds). -/
def digitsVal (β : Nat) (l : List Nat) : Nat :=
  l.foldl (fun acc d => acc * β + d) 0

/-- Value of the first `n` entries of a big-endian digit array, reading
missing entries as `0`.  Used to state loop invariants positionally. -/
def valBE (β : Nat) (l : List Nat) : Nat → Nat
  | 0 => 0
  | n + 1 => valBE β l n * β + l.getD n 0

/-- The right-to-left carry-propagation loop shared by `fromDigitValues`
(base `β = 256`, word weight `W = 36 ^ 8`) and `toString` (base `β = 36`,
word weight `W = 2 ^ 40`):

```
let j = dst.length - 1;
for (; carry > 0 || j > minIndex; j--) {
  carry += dst[j] * W;
  dst[j] = carry % β;
  carry = Math.trunc(carry / β);
}
minIndex = j;
```

`n - 1` plays the role of the JS index `j`; the result pairs the updated
array with the exit index (the new `minIndex`).  The `n = 0` case corresponds
to the loop condition being tested at `j = -1`; for every in-range input the
pending carry is then `0` (the JS loop would otherwise read `dst[-1]` as
`NaN`, drop the carry, and exit). -/
def propagatePass (β W : Nat) (dst : List Nat) : Nat → Int → Nat → List Nat × Int
  | 0, _, _ => (dst, -1)
  | n + 1, minIndex, carry =>
    if 0 < carry ∨ minIndex < (n : Int) then
      let c := carry + dst.getD n 0 * W
      propagatePass β W (dst.set n (c % β)) n minIndex (c / β)
    else (dst, (n : Int))

/-- The two-iteration outer loop shared by `fromDigitValues` (words of weight
`W = 36 ^ 8` into 8 base-256 bytes) and `toString` (words of weight
`W = 2 ^ 40` into 12 base-36 digits): a fresh all-zero array of length `len`
(`minIndex` initially 99, "any number greater than size of output array")
receives word `c1`, then word `c2` with `minIndex` set to the first pass's
exit index. -/
def twoPasses (β W len c1 c2 : Nat) : List Nat :=
  let r1 := propagatePass β W (List.replicate len 0) len 99 c1
  (propagatePass β W r1.1 len r1.2 c2).1

/-- Represents a SCRU64 ID: an 8-byte big-endian unsigned-integer
representation (`readonly bytes: Uint8Array`). -/
structure Scru64Id where
  bytes : List Nat
deriving DecidableEq

/-- `Scru64Id.ofInner`'s byte-ceiling scan: iterates most-significant-first,
rejecting as soon as a byte exceeds the ceiling byte and accepting as soon as
one is strictly below it. -/
def checkMaxBytes : List Nat → List Nat → Bool
  | [], _ => true
  | _, [] => true
  | b :: bs, m :: ms => if m < b then false else if b < m then true else checkMaxBytes bs ms

/-- Creates an object from the internal representation; `none` models the
thrown `RangeError` when the length is not 8 or the value exceeds
`36 ^ 12 - 1`. -/
def Scru64Id.ofInner (bytes : List Nat) : Option Scru64Id :=
  if bytes.length ≠ 8 then none
  else if checkMaxBytes bytes MAX_SCRU64_BYTES then some ⟨bytes⟩ else none

/-- Creates an object from an array of Base36 digit values (the body of the
private `fromDigitValues`); `none` models the thrown `SyntaxError`.  The two
`propagatePass` calls are the `i = -4` and `i = 4` iterations of the outer
loop, whose chunk folds (`carry = carry * 36 + e`) are `digitsVal 36` of the
first 4 and the last 8 digits; the source validates each digit (`0 ≤ e ≤ 35`)
while folding it. -/
def Scru64Id.fromDigitValues (src : List Nat) : Option Scru64Id :=
  if src.length ≠ 12 then none
  else if src.any (fun e => 35 < e) then none
  else some ⟨twoPasses 256 2821109907456 8 (digitsVal 36 (src.take 4))
    (digitsVal 36 ((src.drop 4).take 8))⟩

/-- Creates an object from a 12-digit string representation; `none` models
the thrown `SyntaxError`.  `DECODE_MAP.getD c.toNat 0x7f` is
`DECODE_MAP[value.charCodeAt(i)] ?? 0x7f`. -/
def Scru64Id.fromString (value : List Char) : Option Scru64Id :=
  if value.length ≠ 12 then none
  else Scru64Id.fromDigitValues (value.map (fun c => DECODE_MAP.getD c.toNat 0x7f))

/-- Returns a part of `bytes` as an unsigned integer
(`buffer = buffer * 0x100 + bytes[i]` over `[beginIndex, endIndex)`). -/
def Scru64Id.subUint (id : Scru64Id) (beginIndex endIndex : Nat) : Nat :=
  digitsVal 256 ((id.bytes.drop beginIndex).take (endIndex - beginIndex))

/-- Returns the 12-digit canonical string representation.  The two
`propagatePass` calls are the `i = -2` and `i = 3` iterations of the outer
loop, whose 40-bit input words are `subUint 0 3` and `subUint 3 8`;
`DIGITS.getD d ' '` is `DIGITS.charAt(d)` (out-of-range `d` never occurs for
digits produced by the loop). -/
def Scru64Id.toString (id : Scru64Id) : List Char :=
  (twoPasses 36 1099511627776 12 (id.subUint 0 3) (id.subUint 3 8)).map
    (fun d => DIGITS.getD d ' ')

/-- The 8-byte packing in `fromParts`: `timestamp` into the top 5 bytes
(`bytes[0] = timestamp / 0x1_0000_0000`, `bytes[k] = timestamp >>> (8*(4-k))`)
and `nodeCtr` into the bottom 3; each store wraps modulo 256 as a
`Uint8Array` element assignment does. -/
def packParts (timestamp nodeCtr : Nat) : List Nat :=
  [timestamp / 4294967296 % 256, timestamp / 16777216 % 256,
   timestamp / 65536 % 256, timestamp / 256 % 256, timestamp % 256,
   nodeCtr / 65536 % 256, nodeCtr / 256 % 256, nodeCtr % 256]

/-- Creates a value from the `timestamp` and the combined `nodeCtr` field
value; `none` models the thrown `RangeError` (negative, above the maximum, or
non-integral argument).  Arguments are `ℚ` so that the source's
`Number.isInteger` checks on JS numbers are observable. -/
def Scru64Id.fromParts (timestamp nodeCtr : ℚ) : Option Scru64Id :=
  if timestamp < 0 ∨ (MAX_TIMESTAMP : ℚ) < timestamp ∨ ¬ timestamp.isInt then none
  else if nodeCtr < 0 ∨ (MAX_NODE_CTR : ℚ) < nodeCtr ∨ ¬ nodeCtr.isInt then none
  else some ⟨packParts timestamp.num.toNat nodeCtr.num.toNat⟩

/-- Returns the `timestamp` field value. -/
def Scru64Id.timestamp (id : Scru64Id) : Nat := id.subUint 0 5

/-- Returns the `nodeId` and `counter` field values combined as a single
integer. -/
def Scru64Id.nodeCtr (id : Scru64Id) : Nat := id.subUint 5 8

/-- The byte-wise comparison loop of `compareTo`: sign of the first nonzero
byte difference. -/
def cmpBytes : List Nat → List Nat → Int
  | [], _ => 0
  | _, [] => 0
  | a :: as, b :: bs => if a < b then -1 else if b < a then 1 else cmpBytes as bs

/-- Returns a negative integer, zero, or positive integer if `this` is less
than, equal to, or greater than `other`, respectively. -/
def Scru64Id.compareTo (id other : Scru64Id) : Int := cmpBytes id.bytes other.bytes

/-- JS `<` on strings: lexicographic comparison of UTF-16 code units. -/
def lexLtChars : List Char → List Char → Bool
  | [], [] => false
  | [], _ :: _ => true
  | _ :: _, [] => false
  | a :: as, b :: bs => if a < b then true else if b < a then false else lexLtChars as bs

/-- A pluggable counter-initialization policy: `renew(counterSize, context)`
with context fields `timestamp` and `nodeId`, modelled as a function of
`(counterSize, timestamp, nodeId)`.  The default random policy is covered by
quantifying over all policies whose result fits in `counterSize` bits. -/
def CounterMode : Type := Nat → Nat → Nat → Nat

/-- The error kinds a generator operation can signal: the two argument
`RangeError`s thrown up front, the `RangeError` thrown by `fromParts` on an
out-of-range state, and the `Error` thrown on an illegal `CounterMode`. -/
inductive GenError
  | timestampRange
  | allowanceRange
  | partsRange
  | counterMode
deriving DecidableEq

/-- Outcome of one generator call: a returned ID, `undefined` (significant
rollback), or a thrown exception. -/
inductive GenResult
  | ok (id : Scru64Id)
  | aborted
  | err (e : GenError)
deriving DecidableEq

/-- Represents a SCRU64 ID generator's mutable state (`prevTimestamp`,
`prevNodeCtr`) plus its fixed `counterSize`. -/
structure Scru64Generator where
  prevTimestamp : Nat
  prevNodeCtr : Nat
  counterSize : Nat
deriving DecidableEq

/-- Returns the `nodeId` of the generator (`prevNodeCtr >>> counterSize`). -/
def Scru64Generator.getNodeId (g : Scru64Generator) : Nat :=
  g.prevNodeCtr >>> g.counterSize

/-- Returns the size in bits of the `nodeId` adopted by the generator. -/
def Scru64Generator.getNodeIdSize (g : Scru64Generator) : Nat :=
  NODE_CTR_SIZE - g.counterSize

/-- Calculates the combined `nodeCtr` field value for the next `timestamp`
tick; `none` models the `Error` thrown on an illegal `CounterMode` result. -/
def Scru64Generator.renewNodeCtr (g : Scru64Generator) (renew : CounterMode)
    (timestamp : Nat) : Option Nat :=
  let nodeId := g.getNodeId
  let counter := renew g.counterSize timestamp nodeId
  if 1 <<< g.counterSize ≤ counter then none
  else some (nodeId <<< g.counterSize ||| counter)

/-- The tail `return Scru64Id.fromParts(this.prevTimestamp, this.prevNodeCtr)`
of the generation operations, paired with the (already mutated) state. -/
def Scru64Generator.finishMint (g : Scru64Generator) : GenResult × Scru64Generator :=
  match Scru64Id.fromParts (g.prevTimestamp : ℚ) (g.prevNodeCtr : ℚ) with
  | some id => (.ok id, g)
  | none => (.err .partsRange, g)

/-- Generates a new SCRU64 ID from a Unix timestamp in milliseconds, or
aborts upon significant timestamp rollback.  Mirrors `generateOrAbortCore` of
the v1.0.0 source (the allowance boundary is inclusive:
`timestamp + allowance >= this.prevTimestamp` continues).  Returns the
outcome together with the post-call state; on a thrown error the state
reflects exactly the field writes performed before the throw. -/
def Scru64Generator.generateOrAbortCore (g : Scru64Generator) (renew : CounterMode)
    (unixTsMs rollbackAllowance : Nat) : GenResult × Scru64Generator :=
  let timestamp := unixTsMs / 256
  let allowance := rollbackAllowance / 256
  if timestamp ≤ 0 then (.err .timestampRange, g)
  else if 1099511627775 < allowance then (.err .allowanceRange, g)
  else if g.prevTimestamp < timestamp then
    let g1 : Scru64Generator := { g with prevTimestamp := timestamp }
    match g1.renewNodeCtr renew g1.prevTimestamp with
    | none => (.err .counterMode, g1)
    | some ctr => Scru64Generator.finishMint { g1 with prevNodeCtr := ctr }
  else if g.prevTimestamp ≤ timestamp + allowance then
    let counterMask := 1 <<< g.counterSize - 1
    if g.prevNodeCtr &&& counterMask < counterMask then
      Scru64Generator.finishMint { g with prevNodeCtr := g.prevNodeCtr + 1 }
    else
      let g1 : Scru64Generator := { g with prevTimestamp := g.prevTimestamp + 1 }
      match g1.renewNodeCtr renew g1.prevTimestamp with
      | none => (.err .counterMode, g1)
      | some ctr => Scru64Generator.finishMint { g1 with prevNodeCtr := ctr }
  else (.aborted, g)

/-- Generates a new SCRU64 ID from a Unix timestamp in milliseconds, or
resets the generator upon significant timestamp rollback. -/
def Scru64Generator.generateOrResetCore (g : Scru64Generator) (renew : CounterMode)
    (unixTsMs rollbackAllowance : Nat) : GenResult × Scru64Generator :=
  match g.generateOrAbortCore renew unixTsMs rollbackAllowance with
  | (.aborted, g0) =>
    let g1 : Scru64Generator := { g0 with prevTimestamp := unixTsMs / 256 }
    match g1.renewNodeCtr renew g1.prevTimestamp with
    | none => (.err .counterMode, g1)
    | some ctr => Scru64Generator.finishMint { g1 with prevNodeCtr := ctr }
  | r => r

/-- Returns the `nodePrev` value if the generator holds one (that is, if
`prevTimestamp > 0`). -/
def Scru64Generator.getNodePrev (g : Scru64Generator) : Option Scru64Id :=
  if 0 < g.prevTimestamp then
    Scru64Id.fromParts (g.prevTimestamp : ℚ) (g.prevNodeCtr : ℚ)
  else none

/-- Returns the node configuration specifier describing the generator state
(`${nodePrev}/${size}` or `${nodeId}/${size}`; `Nat.toDigits 10` renders the
decimal interpolation of a JS number). -/
def Scru64Generator.getNodeSpec (g : Scru64Generator) : List Char :=
  match g.getNodePrev with
  | some nodePrev => nodePrev.toString ++ ('/' :: Nat.toDigits 10 g.getNodeIdSize)
  | none => Nat.toDigits 10 g.getNodeId ++ ('/' :: Nat.toDigits 10 g.getNodeIdSize)

/-- The two error kinds of generator construction: `SyntaxError` (string node
specs) and `RangeError` (object node specs). -/
inductive SpecErr
  | synErr
  | rngErr
deriving DecidableEq

/-- Splits a character list at its first `'/'`.  Because `'/'` belongs to no
character class of the node-spec regex, a successful regex match decomposes
the input exactly at its first `'/'`. -/
def splitSlash : List Char → Option (List Char × List Char)
  | [] => none
  | '/' :: rest => some ([], rest)
  | c :: rest => (splitSlash rest).map (fun pq => (c :: pq.1, pq.2))

/-- `[0-9]` (the regex is case-insensitive, digits unaffected). -/
def isDecDigit (c : Char) : Bool := '0' ≤ c && c ≤ '9'

/-- `[0-9a-z]` under the `i` flag. -/
def isBase36Digit (c : Char) : Bool :=
  isDecDigit c || ('a' ≤ c && c ≤ 'z') || ('A' ≤ c && c ≤ 'Z')

/-- `[0-9a-f]` under the `i` flag. -/
def isHexDigit (c : Char) : Bool :=
  isDecDigit c || ('a' ≤ c && c ≤ 'f') || ('A' ≤ c && c ≤ 'F')

/-- Capture group 1: `[0-9a-z]{12}` (case-insensitive). -/
def matchesPrevAlt (p : List Char) : Bool := p.length == 12 && p.all isBase36Digit

/-- Capture group 2: `[0-9]{1,8}|0x[0-9a-f]{1,6}` (case-insensitive). -/
def matchesIdAlt (p : List Char) : Bool :=
  (1 ≤ p.length && p.length ≤ 8 && p.all isDecDigit) ||
  (match p with
   | '0' :: x :: rest =>
     (x == 'x' || x == 'X') && 1 ≤ rest.length && rest.length ≤ 6 && rest.all isHexDigit
   | _ => false)

/-- Whether a string matches the node-spec regex
`^(?:([0-9a-z]{12})|([0-9]{1,8}|0x[0-9a-f]{1,6}))\/([0-9]{1,3})$` with `i`. -/
def matchesNodeSpecGrammar (s : List Char) : Bool :=
  match splitSlash s with
  | none => false
  | some pq =>
    (matchesPrevAlt pq.1 || matchesIdAlt pq.1) &&
      1 ≤ pq.2.length && pq.2.length ≤ 3 && pq.2.all isDecDigit

/-- Decimal digit value of a character in `[0-9]`. -/
def decVal (c : Char) : Nat := c.toNat - 48

/-- Hexadecimal digit value of a character in `[0-9a-fA-F]`. -/
def hexVal (c : Char) : Nat :=
  if isDecDigit c then c.toNat - 48
  else if 'a' ≤ c && c ≤ 'f' then c.toNat - 87
  else c.toNat - 55

/-- `parseInt(s, 10)` on a decimal-digit string. -/
def parseDec (l : List Char) : Nat := l.foldl (fun a c => a * 10 + decVal c) 0

/-- `parseInt` hexadecimal accumulation. -/
def parseHex (l : List Char) : Nat := l.foldl (fun a c => a * 16 + hexVal c) 0

/-- `parseInt(s)` with automatic radix detection, on the strings the grammar
admits (decimal digits, or `0x`/`0X` followed by hex digits). -/
def parseIntJS (l : List Char) : Nat :=
  match l with
  | '0' :: 'x' :: rest => parseHex rest
  | '0' :: 'X' :: rest => parseHex rest
  | _ => parseDec l

/-- The string-`nodeSpec` path of the `Scru64Generator` constructor.  For a
string spec `errType` is `SyntaxError`, so every failure on this path —
including out-of-range `nodeIdSize` or `nodeId` — is `SpecErr.synErr`.  The
alternation tries the `nodePrev` capture before the `nodeId` capture, as the
regex does. -/
def Scru64Generator.ofNodeSpecString (s : List Char) : Except SpecErr Scru64Generator :=
  match splitSlash s with
  | none => .error .synErr
  | some pq =>
    if ¬ (1 ≤ pq.2.length && pq.2.length ≤ 3 && pq.2.all isDecDigit) then .error .synErr
    else
      let nodeIdSize := parseDec pq.2
      if matchesPrevAlt pq.1 then
        match Scru64Id.fromString pq.1 with
        | none => .error .synErr
        | some nodePrev =>
          if nodeIdSize < 1 ∨ NODE_CTR_SIZE ≤ nodeIdSize then .error .synErr
          else .ok { prevTimestamp := nodePrev.timestamp, prevNodeCtr := nodePrev.nodeCtr,
                     counterSize := NODE_CTR_SIZE - nodeIdSize }
      else if matchesIdAlt pq.1 then
        if nodeIdSize < 1 ∨ NODE_CTR_SIZE ≤ nodeIdSize then .error .synErr
        else
          let nodeId := parseIntJS pq.1
          if 1 <<< nodeIdSize ≤ nodeId then .error .synErr
          else .ok { prevTimestamp := 0,
                     prevNodeCtr := nodeId <<< (NODE_CTR_SIZE - nodeIdSize),
                     counterSize := NODE_CTR_SIZE - nodeIdSize }
      else .error .synErr

/-- The object-`nodeSpec` path of the constructor for a `(nodeId, nodeIdSize)`
pair, where `errType` stays `RangeError`. -/
def Scru64Generator.ofNodeIdPair (nodeId nodeIdSize : Nat) : Except SpecErr Scru64Generator :=
  if nodeIdSize < 1 ∨ NODE_CTR_SIZE ≤ nodeIdSize then .error .rngErr
  else if 1 <<< nodeIdSize ≤ nodeId then .error .rngErr
  else .ok { prevTimestamp := 0,
             prevNodeCtr := nodeId <<< (NODE_CTR_SIZE - nodeIdSize),
             counterSize := NODE_CTR_SIZE - nodeIdSize }

/-- Converted 256 ms tick of a millisecond value
(`Math.trunc(unixTsMs / 0x100)` on the nonnegative domain). -/
def convTs (ms : Nat) : Nat := ms / 256

/-- Per-call validity used by the monotonicity claim: positive converted
timestamp, in-range allowance, rollback (if any) within the allowance, and
enough headroom below the maximum timestamp for the minted ID to be valid. -/
def stepOkay (g : Scru64Generator) (call : Nat × Nat) : Bool :=
  1 ≤ convTs call.1 && convTs call.2 ≤ 1099511627775 &&
    g.prevTimestamp ≤ convTs call.1 + convTs call.2 &&
    convTs call.1 ≤ MAX_TIMESTAMP && g.prevTimestamp < MAX_TIMESTAMP

/-- Whether every call of a sequence is valid (in the `stepOkay` sense) at
the state it actually encounters. -/
def validRun (renew : CounterMode) (g : Scru64Generator) : List (Nat × Nat) → Bool
  | [] => true
  | call :: rest =>
    stepOkay g call &&
      validRun renew (g.generateOrAbortCore renew call.1 call.2).2 rest

/-- Runs a sequence of `generateOrAbortCore` calls, collecting the outcomes
and the final state. -/
def runAbortCalls (renew : CounterMode) (g : Scru64Generator) :
    List (Nat × Nat) → List GenResult × Scru64Generator
  | [] => ([], g)
  | call :: rest =>
    let r := g.generateOrAbortCore renew call.1 call.2
    let rr := runAbortCalls renew r.2 rest
    (r.1 :: rr.1, rr.2)

/-- Relation between two consecutively returned IDs (`a` then `b`) for a call
with inputs `call`, under counter size `cs` and policy `renew`: the counter
portion advanced by one within the same timestamp, or the timestamp advanced
by exactly one with the counter reinitialized (counter overflow), or the
timestamp advanced to the (larger) converted timestamp of the call with the
counter reinitialized (clock advance). -/
def stepRel (renew : CounterMode) (cs : Nat) (call : Nat × Nat) (a b : Scru64Id) : Prop :=
  (b.timestamp = a.timestamp ∧ b.nodeCtr = a.nodeCtr + 1) ∨
  (b.timestamp = a.timestamp + 1 ∧
    b.nodeCtr = a.nodeCtr / 2 ^ cs * 2 ^ cs + renew cs b.timestamp (a.nodeCtr / 2 ^ cs)) ∨
  (a.timestamp < convTs call.1 ∧ b.timestamp = convTs call.1 ∧
    b.nodeCtr = a.nodeCtr / 2 ^ cs * 2 ^ cs + renew cs b.timestamp (a.nodeCtr / 2 ^ cs))

/-- Chain of `stepRel` plus strict growth along a run, starting from the
previously returned ID `prev`. -/
def goodTrace (renew : CounterMode) (cs : Nat) :
    Scru64Id → List ((Nat × Nat) × Scru64Id) → Prop
  | _, [] => True
  | prev, (call, id) :: rest =>
    0 < id.compareTo prev ∧ stepRel renew cs call prev id ∧
      goodTrace renew cs id rest

/-- `goodTrace` over all consecutively returned pairs of a run (the first
returned ID is the base of the chain). -/
def goodTraceTop (renew : CounterMode) (cs : Nat) :
    List ((Nat × Nat) × Scru64Id) → Prop
  | [] => True
  | (_, id) :: rest => goodTrace renew cs id rest

/-! ## Arithmetic of big-endian digit lists -/

theorem digitsVal_foldl (β : Nat) (l : List Nat) (a : Nat) :
    l.foldl (fun acc d => acc * β + d) a = a * β ^ l.length + digitsVal β l := by
  induction l generalizing a with
  | nil => simp [digitsVal]
  | cons d l ih =>
    simp only [List.foldl_cons, List.length_cons, digitsVal]
    rw [ih (a * β + d), ih (0 * β + d)]
    ring

theorem digitsVal_cons (β d : Nat) (l : List Nat) :
    digitsVal β (d :: l) = d * β ^ l.length + digitsVal β l := by
  have h : digitsVal β (d :: l) = l.foldl (fun acc x => acc * β + x) (0 * β + d) := rfl
  rw [h, digitsVal_foldl]
  ring_nf

theorem digitsVal_append (β : Nat) (l₁ l₂ : List Nat) :
    digitsVal β (l₁ ++ l₂) = digitsVal β l₁ * β ^ l₂.length + digitsVal β l₂ := by
  have h : digitsVal β (l₁ ++ l₂) = l₂.foldl (fun acc d => acc * β + d) (digitsVal β l₁) := by
    simp [digitsVal, List.foldl_append]
  rw [h, digitsVal_foldl]

theorem digitsVal_lt (β : Nat) (l : List Nat) (h : ∀ d ∈ l, d < β) :
    digitsVal β l < β ^ l.length := by
  induction l with
  | nil => simp [digitsVal]
  | cons d l ih =>
    have hd : d < β := h d (List.mem_cons_self d l)
    have hl : digitsVal β l < β ^ l.length := ih (fun x hx => h x (List.mem_cons_of_mem d hx))
    rw [digitsVal_cons, List.length_cons, pow_succ, Nat.mul_comm (β ^ l.length) β]
    calc d * β ^ l.length + digitsVal β l < (d + 1) * β ^ l.length := by
          rw [Nat.add_mul, Nat.one_mul]; omega
      _ ≤ β * β ^ l.length := Nat.mul_le_mul_right _ hd
  
theorem digitsVal_inj (β : Nat) : ∀ l₁ l₂ : List Nat, l₁.length = l₂.length →
    (∀ d ∈ l₁, d < β) → (∀ d ∈ l₂, d < β) →
    digitsVal β l₁ = digitsVal β l₂ → l₁ = l₂ := by
  intro l₁
  induction l₁ with
  | nil => intro l₂ hlen _ _ _; cases l₂ <;> simp_all
  | cons d l ih =>
    intro l₂ hlen h₁ h₂ hval
    cases l₂ with
    | nil => simp at hlen
    | cons e m =>
      have hlen' : l.length = m.length := by simpa using hlen
      rw [digitsVal_cons, digitsVal_cons, hlen'] at hval
      have hvl : digitsVal β l < β ^ m.length := by
        rw [← hlen']
        exact digitsVal_lt β l (fun x hx => h₁ x (List.mem_cons_of_mem d hx))
      have hvm : digitsVal β m < β ^ m.length := digitsVal_lt β m
        (fun x hx => h₂ x (List.mem_cons_of_mem e hx))
      have hde : d = e := by
        rcases Nat.lt_trichotomy d e with h | h | h
        · nlinarith
        · exact h
        · nlinarith
      subst hde
      have : digitsVal β l = digitsVal β m := by omega
      rw [ih m hlen' (fun x hx => h₁ x (List.mem_cons_of_mem d hx))
        (fun x hx => h₂ x (List.mem_cons_of_mem d hx)) this]

theorem cmpBytes_self : ∀ l : List Nat, cmpBytes l l = 0 := by
  intro l
  induction l with
  | nil => rfl
  | cons a as ih => simp [cmpBytes, ih]

theorem cmpBytes_eq_zero_iff : ∀ l₁ l₂ : List Nat, l₁.length = l₂.length →
    (cmpBytes l₁ l₂ = 0 ↔ l₁ = l₂) := by
  intro l₁
  induction l₁ with
  | nil => intro l₂ hlen; cases l₂ <;> simp_all [cmpBytes]
  | cons a as ih =>
    intro l₂ hlen
    cases l₂ with
    | nil => simp at hlen
    | cons b bs =>
      simp only [cmpBytes]
      rcases Nat.lt_trichotomy a b with h | h | h
      · rw [if_pos h]
        constructor
        · intro hc; exact absurd hc (by decide)
        · intro hc; injection hc with h1 h2; omega
      · subst h
        rw [if_neg (lt_irrefl a), if_neg (lt_irrefl a)]
        rw [ih bs (by simpa using hlen)]
        constructor
        · intro hc; rw [hc]
        · intro hc; cases hc; rfl
      · rw [if_neg (by omega), if_pos h]
        constructor
        · intro hc; exact absurd hc (by decide)
        · intro hc; injection hc with h1 h2; omega

theorem cmpBytes_neg_iff (β : Nat) : ∀ l₁ l₂ : List Nat, l₁.length = l₂.length →
    (∀ d ∈ l₁, d < β) → (∀ d ∈ l₂, d < β) →
    (cmpBytes l₁ l₂ = -1 ↔ digitsVal β l₁ < digitsVal β l₂) := by
  intro l₁
  induction l₁ with
  | nil => intro l₂ hlen _ _; cases l₂ <;> simp_all [cmpBytes, digitsVal]
  | cons a as ih =>
    intro l₂ hlen h₁ h₂
    cases l₂ with
    | nil => simp at hlen
    | cons b bs =>
      have hlen' : as.length = bs.length := by simpa using hlen
      have hva : digitsVal β as < β ^ bs.length := by
        rw [← hlen']
        exact digitsVal_lt β as (fun x hx => h₁ x (List.mem_cons_of_mem a hx))
      have hvb : digitsVal β bs < β ^ bs.length :=
        digitsVal_lt β bs (fun x hx => h₂ x (List.mem_cons_of_mem b hx))
      simp only [cmpBytes, digitsVal_cons, hlen']
      rcases Nat.lt_trichotomy a b with h | h | h
      · rw [if_pos h]
        constructor
        · intro _; nlinarith
        · intro _; rfl
      · subst h
        rw [if_neg (lt_irrefl a), if_neg (lt_irrefl a)]
        rw [ih bs hlen' (fun x hx => h₁ x (List.mem_cons_of_mem a hx))
          (fun x hx => h₂ x (List.mem_cons_of_mem a hx))]
        omega
      · rw [if_neg (by omega), if_pos h]
        constructor
        · intro hc; exact absurd hc (by decide)
        · intro hc; nlinarith

theorem cmpBytes_pos_iff (β : Nat) : ∀ l₁ l₂ : List Nat, l₁.length = l₂.length →
    (∀ d ∈ l₁, d < β) → (∀ d ∈ l₂, d < β) →
    (cmpBytes l₁ l₂ = 1 ↔ digitsVal β l₂ < digitsVal β l₁) := by
  intro l₁
  induction l₁ with
  | nil => intro l₂ hlen _ _; cases l₂ <;> simp_all [cmpBytes, digitsVal]
  | cons a as ih =>
    intro l₂ hlen h₁ h₂
    cases l₂ with
    | nil => simp at hlen
    | cons b bs =>
      have hlen' : as.length = bs.length := by simpa using hlen
      have hva : digitsVal β as < β ^ bs.length := by
        rw [← hlen']
        exact digitsVal_lt β as (fun x hx => h₁ x (List.mem_cons_of_mem a hx))
      have hvb : digitsVal β bs < β ^ bs.length :=
        digitsVal_lt β bs (fun x hx => h₂ x (List.mem_cons_of_mem b hx))
      simp only [cmpBytes, digitsVal_cons, hlen']
      rcases Nat.lt_trichotomy a b with h | h | h
      · rw [if_pos h]
        constructor
        · intro hc; exact absurd hc (by decide)
        · intro hc; nlinarith
      · subst h
        rw [if_neg (lt_irrefl a), if_neg (lt_irrefl a)]
        rw [ih bs hlen' (fun x hx => h₁ x (List.mem_cons_of_mem a hx))
          (fun x hx => h₂ x (List.mem_cons_of_mem a hx))]
        omega
      · rw [if_neg (by omega), if_pos h]
        constructor
        · intro _; nlinarith
        · intro _; rfl

theorem lexLtChars_map_iff (β : Nat) (f : Nat → Char)
    (hf : ∀ x, x < β → ∀ y, y < β → (x < y ↔ f x < f y)) :
    ∀ l₁ l₂ : List Nat, l₁.length = l₂.length →
    (∀ d ∈ l₁, d < β) → (∀ d ∈ l₂, d < β) →
    (lexLtChars (l₁.map f) (l₂.map f) = true ↔ digitsVal β l₁ < digitsVal β l₂) := by
  intro l₁
  induction l₁ with
  | nil => intro l₂ hlen _ _; cases l₂ <;> simp_all [lexLtChars, digitsVal]
  | cons a as ih =>
    intro l₂ hlen h₁ h₂
    cases l₂ with
    | nil => simp at hlen
    | cons b bs =>
      have hlen' : as.length = bs.length := by simpa using hlen
      have ha : a < β := h₁ a (List.mem_cons_self a as)
      have hb : b < β := h₂ b (List.mem_cons_self b bs)
      have hva : digitsVal β as < β ^ bs.length := by
        rw [← hlen']
        exact digitsVal_lt β as (fun x hx => h₁ x (List.mem_cons_of_mem a hx))
      have hvb : digitsVal β bs < β ^ bs.length :=
        digitsVal_lt β bs (fun x hx => h₂ x (List.mem_cons_of_mem b hx))
      simp only [List.map_cons, lexLtChars, digitsVal_cons, hlen']
      rcases Nat.lt_trichotomy a b with h | h | h
      · rw [if_pos ((hf a ha b hb).mp h)]
        constructor
        · intro _; nlinarith
        · intro _; rfl
      · subst h
        rw [if_neg (lt_irrefl (f a)), if_neg (lt_irrefl (f a))]
        rw [ih bs hlen' (fun x hx => h₁ x (List.mem_cons_of_mem a hx))
          (fun x hx => h₂ x (List.mem_cons_of_mem a hx))]
        omega
      · have hfb : f b < f a := (hf b hb a ha).mp h
        have hnab : ¬ f a < f b := fun hc => absurd (lt_trans hfb hc) (lt_irrefl (f b))
        rw [if_neg hnab, if_pos hfb]
        constructor
        · intro hc; exact absurd hc (by decide)
        · intro hc; nlinarith

theorem valBE_congr (β : Nat) (l₁ l₂ : List Nat) : ∀ n : Nat,
    (∀ j, j < n → l₁.getD j 0 = l₂.getD j 0) → valBE β l₁ n = valBE β l₂ n := by
  intro n
  induction n with
  | zero => intro _; rfl
  | succ n ih =>
    intro h
    simp only [valBE]
    rw [ih (fun j hj => h j (Nat.lt_succ_of_lt hj)), h n (Nat.lt_succ_self n)]

theorem valBE_set_ge (β : Nat) (l : List Nat) (j v n : Nat) (h : n ≤ j) :
    valBE β (l.set j v) n = valBE β l n := by
  apply valBE_congr
  intro i hi
  simp only [List.getD_eq_getElem?_getD]
  rw [List.getElem?_set_ne (by omega)]

theorem valBE_take (β : Nat) (l : List Nat) : ∀ n : Nat, n ≤ l.length →
    valBE β l n = digitsVal β (l.take n) := by
  intro n
  induction n with
  | zero => intro _; simp [valBE, digitsVal]
  | succ n ih =>
    intro h
    have hn : n < l.length := by omega
    simp only [valBE]
    rw [ih (by omega), List.take_succ]
    have hget : l[n]? = some (l.getD n 0) := by
      simp [List.getD_eq_getElem?_getD, List.getElem?_eq_getElem hn]
    rw [hget]
    simp only [Option.toList_some]
    rw [digitsVal_append]
    simp [digitsVal]

theorem valBE_eq_zero (β : Nat) (l : List Nat) : ∀ n : Nat,
    (∀ j, j < n → l.getD j 0 = 0) → valBE β l n = 0 := by
  intro n
  induction n with
  | zero => intro _; rfl
  | succ n ih =>
    intro h
    simp only [valBE]
    rw [ih (fun j hj => h j (Nat.lt_succ_of_lt hj)), h n (Nat.lt_succ_self n)]
    simp

theorem getD_set_self (l : List Nat) (n v : Nat) (h : n < l.length) :
    (l.set n v).getD n 0 = v := by
  simp only [List.getD_eq_getElem?_getD]
  rw [List.getElem?_set_eq_of_lt v h]
  rfl

theorem getD_set_ne (l : List Nat) (n j v : Nat) (h : n ≠ j) :
    (l.set n v).getD j 0 = l.getD j 0 := by
  simp only [List.getD_eq_getElem?_getD]
  rw [List.getElem?_set_ne (by omega)]

theorem propagatePass_spec (β W : Nat) (hβ : 1 < β) : ∀ (n : Nat) (dst : List Nat)
    (minIndex : Int) (carry : Nat),
    n ≤ dst.length →
    (∀ j, j < n → dst.getD j 0 < β) →
    (∀ j : Nat, j < n → (j : Int) ≤ minIndex → dst.getD j 0 = 0) →
    valBE β dst n * W + carry < β ^ n →
    (propagatePass β W dst n minIndex carry).1.length = dst.length ∧
    (∀ j, n ≤ j → (propagatePass β W dst n minIndex carry).1.getD j 0 = dst.getD j 0) ∧
    valBE β (propagatePass β W dst n minIndex carry).1 n = valBE β dst n * W + carry ∧
    (∀ j, j < n → (propagatePass β W dst n minIndex carry).1.getD j 0 < β) ∧
    (propagatePass β W dst n minIndex carry).2 < (n : Int) ∧
    (∀ j : Nat, j < n → (j : Int) ≤ (propagatePass β W dst n minIndex carry).2 →
      (propagatePass β W dst n minIndex carry).1.getD j 0 = dst.getD j 0) := by
  intro n
  induction n with
  | zero =>
    intro dst minIndex carry hn hdig hzero hfit
    have hc0 : carry = 0 := by
      simp only [pow_zero] at hfit
      omega
    have hstep : propagatePass β W dst 0 minIndex carry = (dst, -1) := rfl
    rw [hstep]
    refine ⟨rfl, fun j _ => rfl, ?_, fun j hj => absurd hj (by omega), by norm_num,
      fun j hj => absurd hj (by omega)⟩
    simp [valBE, hc0]
  | succ n ih =>
    intro dst minIndex carry hn hdig hzero hfit
    by_cases hcond : 0 < carry ∨ minIndex < (n : Int)
    · have hstep : propagatePass β W dst (n + 1) minIndex carry =
        propagatePass β W (dst.set n ((carry + dst.getD n 0 * W) % β)) n minIndex
          ((carry + dst.getD n 0 * W) / β) := by
        simp only [propagatePass, if_pos hcond]
      have hβ0 : 0 < β := by omega
      have hnlen : n < dst.length := by omega
      have hvBE : valBE β dst (n + 1) = valBE β dst n * β + dst.getD n 0 := rfl
      have hvset : valBE β (dst.set n ((carry + dst.getD n 0 * W) % β)) n = valBE β dst n :=
        valBE_set_ge β dst n _ n le_rfl
      have hfit' : valBE β (dst.set n ((carry + dst.getD n 0 * W) % β)) n * W +
          (carry + dst.getD n 0 * W) / β < β ^ n := by
        rw [hvset]
        have h1 : (carry + dst.getD n 0 * W) / β * β ≤ carry + dst.getD n 0 * W :=
          Nat.div_mul_le_self _ _
        have h2 : valBE β dst n * W * β + (carry + dst.getD n 0 * W) < β ^ n * β := by
          rw [hvBE] at hfit
          rw [pow_succ] at hfit
          nlinarith
        have hkey : (valBE β dst n * W + (carry + dst.getD n 0 * W) / β) * β < β ^ n * β := by
          nlinarith
        exact lt_of_mul_lt_mul_right hkey (Nat.zero_le β)
      obtain ⟨ihlen, ihsuf, ihval, ihdig, ihexit, ihkeep⟩ :=
        ih (dst.set n ((carry + dst.getD n 0 * W) % β)) minIndex
          ((carry + dst.getD n 0 * W) / β)
          (by rw [List.length_set]; omega)
          (fun j hj => by rw [getD_set_ne dst n j _ (by omega)]; exact hdig j (by omega))
          (fun j hj hjm => by
            rw [getD_set_ne dst n j _ (by omega)]
            exact hzero j (by omega) hjm)
          hfit'
      rw [hstep]
      have hrlen : (propagatePass β W (dst.set n ((carry + dst.getD n 0 * W) % β)) n minIndex
          ((carry + dst.getD n 0 * W) / β)).1.length = dst.length := by
        rw [ihlen, List.length_set]
      refine ⟨hrlen, ?_, ?_, ?_, ?_, ?_⟩
      · intro j hj
        rw [ihsuf j (by omega), getD_set_ne dst n j _ (by omega)]
      · have hrn : (propagatePass β W (dst.set n ((carry + dst.getD n 0 * W) % β)) n minIndex
            ((carry + dst.getD n 0 * W) / β)).1.getD n 0 =
            (carry + dst.getD n 0 * W) % β := by
          rw [ihsuf n le_rfl, getD_set_self dst n _ hnlen]
        show valBE β _ n * β + _ = _
        rw [hrn, ihval, hvset, hvBE]
        have hdm := Nat.div_add_mod (carry + dst.getD n 0 * W) β
        nlinarith [hdm]
      · intro j hj
        rcases Nat.lt_or_ge j n with hjn | hjn
        · exact ihdig j hjn
        · have hjeq : j = n := by omega
          subst hjeq
          rw [ihsuf j le_rfl, getD_set_self dst j _ hnlen]
          exact Nat.mod_lt _ hβ0
      · calc (propagatePass β W (dst.set n ((carry + dst.getD n 0 * W) % β)) n minIndex
            ((carry + dst.getD n 0 * W) / β)).2 < (n : Int) := ihexit
          _ < ((n + 1 : Nat) : Int) := by push_cast; omega
      · intro j hj hjm
        have hjn : j < n := by
          have := ihexit
          omega
        rw [ihkeep j hjn hjm, getD_set_ne dst n j _ (by omega)]
    · have hstep : propagatePass β W dst (n + 1) minIndex carry = (dst, (n : Int)) := by
        simp only [propagatePass, if_neg hcond]
      push_neg at hcond
      obtain ⟨hc0, hmin⟩ := hcond
      have hcarry : carry = 0 := by omega
      have hallzero : valBE β dst (n + 1) = 0 :=
        valBE_eq_zero β dst (n + 1) (fun j hj => hzero j hj (by omega))
      rw [hstep]
      refine ⟨rfl, fun j _ => rfl, ?_, hdig, by push_cast; omega, fun j _ _ => rfl⟩
      rw [hallzero, hcarry]
      simp

theorem valBE_length (β : Nat) (l : List Nat) : valBE β l l.length = digitsVal β l := by
  rw [valBE_take β l l.length le_rfl, List.take_length]

theorem digitsVal_split (β : Nat) (l : List Nat) (a : Nat) (h : a ≤ l.length) :
    digitsVal β l = digitsVal β (l.take a) * β ^ (l.length - a) + digitsVal β (l.drop a) := by
  conv_lhs => rw [← List.take_append_drop a l]
  rw [digitsVal_append]
  simp

theorem lt_of_getD_lt (l : List Nat) (β : Nat)
    (h : ∀ j, j < l.length → l.getD j 0 < β) : ∀ x ∈ l, x < β := by
  intro x hx
  obtain ⟨i, hi, rfl⟩ := List.mem_iff_getElem.mp hx
  have := h i hi
  simpa [List.getD_eq_getElem?_getD, List.getElem?_eq_getElem hi] using this

theorem twoPasses_spec (β W len c1 c2 : Nat) (hβ : 1 < β) (hW : 0 < W)
    (hfit : c1 * W + c2 < β ^ len) :
    (twoPasses β W len c1 c2).length = len ∧
    (∀ x ∈ twoPasses β W len c1 c2, x < β) ∧
    digitsVal β (twoPasses β W len c1 c2) = c1 * W + c2 := by
  have hrep : ∀ j, j < len → (List.replicate len (0:Nat)).getD j 0 = 0 := by
    intro j hj
    simp [List.getD_eq_getElem?_getD, List.getElem?_replicate, hj]
  have hvz : valBE β (List.replicate len (0:Nat)) len = 0 :=
    valBE_eq_zero β _ len (fun j hj => hrep j hj)
  have hc1fit : c1 < β ^ len := by nlinarith
  obtain ⟨h1len, h1suf, h1val, h1dig, h1exit, h1keep⟩ :=
    propagatePass_spec β W hβ len (List.replicate len 0) 99 c1
      (by simp)
      (fun j hj => by rw [hrep j hj]; omega)
      (fun j hj _ => hrep j hj)
      (by rw [hvz]; simpa using hc1fit)
  obtain ⟨h2len, h2suf, h2val, h2dig, h2exit, h2keep⟩ :=
    propagatePass_spec β W hβ len
      (propagatePass β W (List.replicate len 0) len 99 c1).1
      (propagatePass β W (List.replicate len 0) len 99 c1).2 c2
      (by rw [h1len]; simp)
      h1dig
      (fun j hj hjm => by rw [h1keep j hj hjm]; exact hrep j hj)
      (by rw [h1val, hvz]; simpa using hfit)
  have hlen2 : (twoPasses β W len c1 c2).length = len := by
    show (propagatePass β W (propagatePass β W (List.replicate len 0) len 99 c1).1 len
      (propagatePass β W (List.replicate len 0) len 99 c1).2 c2).1.length = len
    rw [h2len, h1len]
    simp
  refine ⟨hlen2, ?_, ?_⟩
  · apply lt_of_getD_lt
    intro j hj
    rw [hlen2] at hj
    exact h2dig j hj
  · have h := h2val
    rw [h1val, hvz] at h
    have hdg : valBE β (twoPasses β W len c1 c2) len = digitsVal β (twoPasses β W len c1 c2) := by
      rw [valBE_take β _ len (by omega)]
      rw [List.take_of_length_le (by omega)]
    rw [← hdg]
    show valBE β (propagatePass β W (propagatePass β W (List.replicate len 0) len 99 c1).1 len
      (propagatePass β W (List.replicate len 0) len 99 c1).2 c2).1 len = c1 * W + c2
    rw [h]
    ring

theorem fromDigitValues_spec (src : List Nat) (hlen : src.length = 12)
    (hdig : ∀ d ∈ src, d ≤ 35) :
    ∃ bytes : List Nat, Scru64Id.fromDigitValues src = some ⟨bytes⟩ ∧
      bytes.length = 8 ∧ (∀ b ∈ bytes, b < 256) ∧
      digitsVal 256 bytes = digitsVal 36 src := by
  have hany : src.any (fun e => 35 < e) = false := by
    rw [List.any_eq_false]
    intro d hd
    simpa using Nat.not_lt.mpr (hdig d hd)
  have htake4 : (src.take 4).length = 4 := by simp [hlen]
  have hdrop4 : (src.drop 4).take 8 = src.drop 4 :=
    List.take_of_length_le (by simp [hlen])
  have hc1 : digitsVal 36 (src.take 4) < 1679616 := by
    have h := digitsVal_lt 36 (src.take 4) (fun d hd => Nat.lt_of_le_of_lt
      (hdig d (List.take_subset 4 src hd)) (by omega))
    rw [htake4] at h
    calc digitsVal 36 (src.take 4) < 36 ^ 4 := h
      _ = 1679616 := by norm_num
  have hc2 : digitsVal 36 ((src.drop 4).take 8) < 2821109907456 := by
    have hld : (src.drop 4).length = 8 := by simp [hlen]
    have h := digitsVal_lt 36 (src.drop 4) (fun d hd => Nat.lt_of_le_of_lt
      (hdig d (List.drop_subset 4 src hd)) (by omega))
    rw [hld] at h
    rw [hdrop4]
    calc digitsVal 36 (src.drop 4) < 36 ^ 8 := h
      _ = 2821109907456 := by norm_num
  obtain ⟨hplen, hpdig, hpval⟩ := twoPasses_spec 256 2821109907456 8
    (digitsVal 36 (src.take 4)) (digitsVal 36 ((src.drop 4).take 8))
    (by omega) (by omega)
    (by
      calc digitsVal 36 (src.take 4) * 2821109907456 + digitsVal 36 ((src.drop 4).take 8) ≤
          1679615 * 2821109907456 + 2821109907455 := by
            have h1 : digitsVal 36 (src.take 4) ≤ 1679615 := by omega
            have h2 : digitsVal 36 ((src.drop 4).take 8) ≤ 2821109907455 := by omega
            exact Nat.add_le_add (Nat.mul_le_mul_right _ h1) h2
        _ < 256 ^ 8 := by norm_num)
  refine ⟨twoPasses 256 2821109907456 8 (digitsVal 36 (src.take 4))
    (digitsVal 36 ((src.drop 4).take 8)), ?_, hplen, hpdig, ?_⟩
  · simp only [Scru64Id.fromDigitValues]
    rw [if_neg (by omega), if_neg (by rw [hany]; exact Bool.false_ne_true)]
  · rw [hpval, hdrop4, digitsVal_split 36 src 4 (by omega), hlen]
    norm_num

theorem toString_spec (id : Scru64Id) (hlen : id.bytes.length = 8)
    (hbyte : ∀ b ∈ id.bytes, b < 256) (hmax : digitsVal 256 id.bytes < 36 ^ 12) :
    ∃ ds : List Nat, Scru64Id.toString id = ds.map (fun d => DIGITS.getD d ' ') ∧
      ds.length = 12 ∧ (∀ d ∈ ds, d < 36) ∧ digitsVal 36 ds = digitsVal 256 id.bytes := by
  have hsub03 : id.subUint 0 3 = digitsVal 256 (id.bytes.take 3) := by
    simp [Scru64Id.subUint]
  have hsub38 : id.subUint 3 8 = digitsVal 256 (id.bytes.drop 3) := by
    have hd : (id.bytes.drop 3).take 5 = id.bytes.drop 3 :=
      List.take_of_length_le (by simp [hlen])
    simp only [Scru64Id.subUint]
    rw [show (8 : Nat) - 3 = 5 from rfl, hd]
  have hsplit : digitsVal 256 id.bytes =
      digitsVal 256 (id.bytes.take 3) * 1099511627776 + digitsVal 256 (id.bytes.drop 3) := by
    rw [digitsVal_split 256 id.bytes 3 (by omega), hlen]
    norm_num
  obtain ⟨hplen, hpdig, hpval⟩ := twoPasses_spec 36 1099511627776 12
    (id.subUint 0 3) (id.subUint 3 8) (by omega) (by omega)
    (by rw [hsub03, hsub38, ← hsplit]; exact hmax)
  refine ⟨twoPasses 36 1099511627776 12 (id.subUint 0 3) (id.subUint 3 8),
    rfl, hplen, hpdig, ?_⟩
  rw [hpval, hsub03, hsub38, hsplit]

/-! ## Character-level facts about the Base36 alphabet -/

theorem isBase36Digit_iff_toNat (c : Char) :
    isBase36Digit c = true ↔
      (48 ≤ c.toNat ∧ c.toNat ≤ 57 ∨ 65 ≤ c.toNat ∧ c.toNat ≤ 90 ∨
        97 ≤ c.toNat ∧ c.toNat ≤ 122) := by
  simp only [isBase36Digit, isDecDigit, Bool.or_eq_true, Bool.and_eq_true,
    decide_eq_true_eq]
  constructor
  · rintro ((⟨h1, h2⟩ | ⟨h1, h2⟩) | ⟨h1, h2⟩)
    · exact Or.inl ⟨h1, h2⟩
    · exact Or.inr (Or.inr ⟨h1, h2⟩)
    · exact Or.inr (Or.inl ⟨h1, h2⟩)
  · rintro (⟨h1, h2⟩ | ⟨h1, h2⟩ | ⟨h1, h2⟩)
    · exact Or.inl (Or.inl ⟨h1, h2⟩)
    · exact Or.inr ⟨h1, h2⟩
    · exact Or.inl (Or.inr ⟨h1, h2⟩)

set_option maxRecDepth 4000 in
theorem decodeMap_le_35_iff (n : Nat) :
    DECODE_MAP.getD n 127 ≤ 35 ↔
      (48 ≤ n ∧ n ≤ 57 ∨ 65 ≤ n ∧ n ≤ 90 ∨ 97 ≤ n ∧ n ≤ 122) := by
  rcases Nat.lt_or_ge n 128 with h | h
  · have hb : ∀ m, m < 128 → (DECODE_MAP.getD m 127 ≤ 35 ↔
        (48 ≤ m ∧ m ≤ 57 ∨ 65 ≤ m ∧ m ≤ 90 ∨ 97 ≤ m ∧ m ≤ 122)) := by decide
    exact hb n h
  · have hlen : DECODE_MAP.length = 128 := by decide
    rw [List.getD_eq_default _ _ (by omega)]
    constructor
    · intro hc; omega
    · intro hc; omega

set_option maxRecDepth 4000 in
theorem digits_decode_toLower (c : Char) (h : isBase36Digit c = true) :
    DIGITS.getD (DECODE_MAP.getD c.toNat 127) ' ' = c.toLower := by
  have hn := (isBase36Digit_iff_toNat c).mp h
  have hb : ∀ n, n < 128 → (48 ≤ n ∧ n ≤ 57 ∨ 65 ≤ n ∧ n ≤ 90 ∨ 97 ≤ n ∧ n ≤ 122) →
      DIGITS.getD (DECODE_MAP.getD n 127) ' ' = (Char.ofNat n).toLower := by decide
  have hc := hb c.toNat (by omega) hn
  rwa [Char.ofNat_toNat] at hc

theorem fromString_spec (s : List Char) (hlen : s.length = 12)
    (hchars : ∀ c ∈ s, isBase36Digit c = true) :
    ∃ bytes : List Nat, Scru64Id.fromString s = some ⟨bytes⟩ ∧ bytes.length = 8 ∧
      (∀ b ∈ bytes, b < 256) ∧
      digitsVal 256 bytes = digitsVal 36 (s.map (fun c => DECODE_MAP.getD c.toNat 127)) := by
  have hmlen : (s.map (fun c => DECODE_MAP.getD c.toNat 127)).length = 12 := by
    simpa using hlen
  have hmdig : ∀ d ∈ s.map (fun c => DECODE_MAP.getD c.toNat 127), d ≤ 35 := by
    intro d hd
    obtain ⟨c, hc, rfl⟩ := List.mem_map.mp hd
    exact (decodeMap_le_35_iff c.toNat).mpr ((isBase36Digit_iff_toNat c).mp (hchars c hc))
  obtain ⟨bytes, hsome, hblen, hbdig, hbval⟩ := fromDigitValues_spec _ hmlen hmdig
  refine ⟨bytes, ?_, hblen, hbdig, hbval⟩
  rw [Scru64Id.fromString, if_neg (by omega)]
  exact hsome

theorem fromString_toString_roundTrip (s : List Char) (hlen : s.length = 12)
    (hchars : ∀ c ∈ s, isBase36Digit c = true) :
    ∃ id : Scru64Id, Scru64Id.fromString s = some id ∧
      id.toString = s.map Char.toLower := by
  obtain ⟨bytes, hsome, hblen, hbdig, hbval⟩ := fromString_spec s hlen hchars
  have hdiglen : (s.map (fun c => DECODE_MAP.getD c.toNat 127)).length = 12 := by
    simpa using hlen
  have hdiglt : ∀ d ∈ s.map (fun c => DECODE_MAP.getD c.toNat 127), d < 36 := by
    intro d hd
    obtain ⟨c, hc, rfl⟩ := List.mem_map.mp hd
    have := (decodeMap_le_35_iff c.toNat).mpr
      ((isBase36Digit_iff_toNat c).mp (hchars c hc))
    omega
  have hmax : digitsVal 256 bytes < 36 ^ 12 := by
    rw [hbval]
    have h := digitsVal_lt 36 _ hdiglt
    rwa [hdiglen] at h
  obtain ⟨ds, hts, hdslen, hdslt, hdsval⟩ := toString_spec ⟨bytes⟩ hblen hbdig hmax
  have hds : ds = s.map (fun c => DECODE_MAP.getD c.toNat 127) := by
    apply digitsVal_inj 36 ds _ (by omega) hdslt hdiglt
    rw [hdsval, hbval]
  refine ⟨⟨bytes⟩, hsome, ?_⟩
  rw [hts, hds, List.map_map]
  apply List.map_congr_left
  intro c hc
  exact digits_decode_toLower c (hchars c hc)

theorem fromString_none (s : List Char)
    (h : s.length ≠ 12 ∨ ∃ c ∈ s, isBase36Digit c = false) :
    Scru64Id.fromString s = none := by
  rcases h with h | ⟨c, hc, hbad⟩
  · rw [Scru64Id.fromString, if_pos h]
  · by_cases heq : s.length = 12
    · have hnot : ¬ (48 ≤ c.toNat ∧ c.toNat ≤ 57 ∨ 65 ≤ c.toNat ∧ c.toNat ≤ 90 ∨
          97 ≤ c.toNat ∧ c.toNat ≤ 122) := by
        intro hin
        rw [(isBase36Digit_iff_toNat c).mpr hin] at hbad
        exact Bool.noConfusion hbad
      have hgt := (decodeMap_le_35_iff c.toNat).not.mpr hnot
      have hany : (s.map (fun x => DECODE_MAP.getD x.toNat 127)).any
          (fun e => 35 < e) = true := by
        rw [List.any_eq_true]
        refine ⟨DECODE_MAP.getD c.toNat 127, List.mem_map_of_mem _ hc, ?_⟩
        simpa using Nat.not_le.mp hgt
      rw [Scru64Id.fromString, if_neg (by omega), Scru64Id.fromDigitValues,
        if_neg (by simp [heq]), if_pos hany]
    · rw [Scru64Id.fromString, if_pos heq]

/-! ## Arithmetic of the part packing -/

theorem packParts_length (t c : Nat) : (packParts t c).length = 8 := rfl

theorem packParts_lt256 (t c : Nat) : ∀ b ∈ packParts t c, b < 256 := by
  intro b hb
  simp only [packParts, List.mem_cons, List.not_mem_nil, or_false] at hb
  rcases hb with rfl | rfl | rfl | rfl | rfl | rfl | rfl | rfl <;> omega

theorem packParts_timestamp (t c : Nat) (ht : t < 1099511627776) :
    Scru64Id.timestamp ⟨packParts t c⟩ = t := by
  have hslice : ((packParts t c).drop 0).take 5 =
      [t / 4294967296 % 256, t / 16777216 % 256, t / 65536 % 256,
       t / 256 % 256, t % 256] := rfl
  show digitsVal 256 (((packParts t c).drop 0).take (5 - 0)) = t
  rw [show (5 : Nat) - 0 = 5 from rfl, hslice]
  simp only [digitsVal, List.foldl_cons, List.foldl_nil]
  omega

theorem packParts_nodeCtr (t c : Nat) (hc : c < 16777216) :
    Scru64Id.nodeCtr ⟨packParts t c⟩ = c := by
  have hslice : ((packParts t c).drop 5).take 3 =
      [c / 65536 % 256, c / 256 % 256, c % 256] := rfl
  show digitsVal 256 (((packParts t c).drop 5).take (8 - 5)) = c
  rw [show (8 : Nat) - 5 = 3 from rfl, hslice]
  simp only [digitsVal, List.foldl_cons, List.foldl_nil]
  omega

theorem digitsVal_packParts (t c : Nat) (ht : t < 1099511627776) (hc : c < 16777216) :
    digitsVal 256 (packParts t c) = t * 16777216 + c := by
  simp only [packParts, digitsVal, List.foldl_cons, List.foldl_nil]
  omega

theorem fromParts_natCast (t c : Nat) :
    Scru64Id.fromParts (t : ℚ) (c : ℚ) =
      if t ≤ MAX_TIMESTAMP then
        if c ≤ MAX_NODE_CTR then some ⟨packParts t c⟩ else none
      else none := by
  have hint : ∀ n : Nat, ((n : ℚ)).isInt = true := fun n => by
    simp [Rat.isInt, Rat.den_natCast]
  have hnum : ∀ n : Nat, ((n : ℚ)).num.toNat = n := fun n => by
    rw [Rat.num_natCast]
    exact Int.toNat_natCast n
  rw [Scru64Id.fromParts]
  by_cases h1 : t ≤ MAX_TIMESTAMP
  · have hnott : ¬ ((t:ℚ) < 0 ∨ (MAX_TIMESTAMP : ℚ) < (t:ℚ) ∨ ¬ ((t:ℚ)).isInt = true) := by
      push_neg
      exact ⟨by positivity, by exact_mod_cast h1, by simp [hint]⟩
    by_cases h2 : c ≤ MAX_NODE_CTR
    · have hnotc : ¬ ((c:ℚ) < 0 ∨ (MAX_NODE_CTR : ℚ) < (c:ℚ) ∨ ¬ ((c:ℚ)).isInt = true) := by
        push_neg
        exact ⟨by positivity, by exact_mod_cast h2, by simp [hint]⟩
      rw [if_neg hnott, if_neg hnotc, if_pos h1, if_pos h2, hnum, hnum]
    · have hcond : (c:ℚ) < 0 ∨ (MAX_NODE_CTR : ℚ) < (c:ℚ) ∨ ¬ ((c:ℚ)).isInt = true :=
        Or.inr (Or.inl (by exact_mod_cast Nat.not_le.mp h2))
      rw [if_neg hnott, if_pos hcond, if_pos h1, if_neg h2]
  · have hcond : (t:ℚ) < 0 ∨ (MAX_TIMESTAMP : ℚ) < (t:ℚ) ∨ ¬ ((t:ℚ)).isInt = true :=
      Or.inr (Or.inl (by exact_mod_cast Nat.not_le.mp h1))
    rw [if_pos hcond, if_neg h1]

/-! ## Byte-ceiling scan and comparison corollaries -/

theorem cmpBytes_cases : ∀ l m : List Nat,
    cmpBytes l m = -1 ∨ cmpBytes l m = 0 ∨ cmpBytes l m = 1 := by
  intro l
  induction l with
  | nil => intro m; simp [cmpBytes]
  | cons b bs ih =>
    intro m
    cases m with
    | nil => simp [cmpBytes]
    | cons x xs =>
      simp only [cmpBytes]
      rcases Nat.lt_trichotomy b x with h | h | h
      · rw [if_pos h]; tauto
      · subst h; rw [if_neg (lt_irrefl b), if_neg (lt_irrefl b)]; exact ih xs
      · rw [if_neg (by omega), if_pos h]; tauto

theorem checkMaxBytes_iff_cmp : ∀ l m : List Nat,
    checkMaxBytes l m = true ↔ cmpBytes l m ≠ 1 := by
  intro l
  induction l with
  | nil => intro m; simp [checkMaxBytes, cmpBytes]
  | cons b bs ih =>
    intro m
    cases m with
    | nil => simp [checkMaxBytes, cmpBytes]
    | cons x xs =>
      simp only [checkMaxBytes, cmpBytes]
      rcases Nat.lt_trichotomy b x with h | h | h
      · rw [if_neg (by omega), if_pos h, if_pos h]
        simp
      · subst h
        rw [if_neg (lt_irrefl b), if_neg (lt_irrefl b), if_neg (lt_irrefl b),
          if_neg (lt_irrefl b)]
        exact ih xs
      · rw [if_pos h, if_neg (by omega), if_pos h]
        simp

theorem compareTo_pos_iff (a b : Scru64Id) (hla : a.bytes.length = 8)
    (hlb : b.bytes.length = 8) (hba : ∀ x ∈ a.bytes, x < 256)
    (hbb : ∀ x ∈ b.bytes, x < 256) :
    (0 < a.compareTo b ↔ digitsVal 256 b.bytes < digitsVal 256 a.bytes) := by
  have hpos := cmpBytes_pos_iff 256 a.bytes b.bytes (by omega) hba hbb
  rcases cmpBytes_cases a.bytes b.bytes with h | h | h
  · rw [Scru64Id.compareTo, h]
    constructor
    · intro hc; exact absurd hc (by decide)
    · intro hv
      rw [h] at hpos
      exact absurd ((cmpBytes_neg_iff 256 a.bytes b.bytes (by omega) hba hbb).mp h)
        (by omega)
  · rw [Scru64Id.compareTo, h]
    have heq := (cmpBytes_eq_zero_iff a.bytes b.bytes (by omega)).mp h
    rw [heq]
    simp
  · rw [Scru64Id.compareTo, h]
    rw [h] at hpos
    constructor
    · intro _; exact hpos.mp rfl
    · intro _; decide

theorem compareTo_neg_iff (a b : Scru64Id) (hla : a.bytes.length = 8)
    (hlb : b.bytes.length = 8) (hba : ∀ x ∈ a.bytes, x < 256)
    (hbb : ∀ x ∈ b.bytes, x < 256) :
    (a.compareTo b < 0 ↔ digitsVal 256 a.bytes < digitsVal 256 b.bytes) := by
  have hneg := cmpBytes_neg_iff 256 a.bytes b.bytes (by omega) hba hbb
  rcases cmpBytes_cases a.bytes b.bytes with h | h | h
  · rw [Scru64Id.compareTo, h]
    rw [h] at hneg
    constructor
    · intro _; exact hneg.mp rfl
    · intro _; decide
  · rw [Scru64Id.compareTo, h]
    have heq := (cmpBytes_eq_zero_iff a.bytes b.bytes (by omega)).mp h
    rw [heq]
    simp
  · rw [Scru64Id.compareTo, h]
    constructor
    · intro hc; exact absurd hc (by decide)
    · intro hv
      exact absurd ((cmpBytes_pos_iff 256 a.bytes b.bytes (by omega) hba hbb).mp h)
        (by omega)

theorem compareTo_zero_iff (a b : Scru64Id) (hl : a.bytes.length = b.bytes.length)
    (hba : ∀ x ∈ a.bytes, x < 256) (hbb : ∀ x ∈ b.bytes, x < 256) :
    (a.compareTo b = 0 ↔ digitsVal 256 a.bytes = digitsVal 256 b.bytes) := by
  rw [Scru64Id.compareTo, cmpBytes_eq_zero_iff a.bytes b.bytes hl]
  constructor
  · intro h; rw [h]
  · intro h
    exact digitsVal_inj 256 a.bytes b.bytes hl hba hbb h

theorem compareTo_packParts_pos (t1 c1 t2 c2 : Nat)
    (h1 : t1 < 1099511627776) (h2 : c1 < 16777216)
    (h3 : t2 < 1099511627776) (h4 : c2 < 16777216) :
    (0 < Scru64Id.compareTo ⟨packParts t1 c1⟩ ⟨packParts t2 c2⟩ ↔
      t2 * 16777216 + c2 < t1 * 16777216 + c1) := by
  have h := compareTo_pos_iff ⟨packParts t1 c1⟩ ⟨packParts t2 c2⟩
    (packParts_length _ _) (packParts_length _ _)
    (packParts_lt256 _ _) (packParts_lt256 _ _)
  rw [h]
  show digitsVal 256 (packParts t2 c2) < digitsVal 256 (packParts t1 c1) ↔ _
  rw [digitsVal_packParts t1 c1 h1 h2, digitsVal_packParts t2 c2 h3 h4]

theorem compareTo_packParts_neg (t1 c1 t2 c2 : Nat)
    (h1 : t1 < 1099511627776) (h2 : c1 < 16777216)
    (h3 : t2 < 1099511627776) (h4 : c2 < 16777216) :
    (Scru64Id.compareTo ⟨packParts t1 c1⟩ ⟨packParts t2 c2⟩ < 0 ↔
      t1 * 16777216 + c1 < t2 * 16777216 + c2) := by
  have h := compareTo_neg_iff ⟨packParts t1 c1⟩ ⟨packParts t2 c2⟩
    (packParts_length _ _) (packParts_length _ _)
    (packParts_lt256 _ _) (packParts_lt256 _ _)
  rw [h]
  show digitsVal 256 (packParts t1 c1) < digitsVal 256 (packParts t2 c2) ↔ _
  rw [digitsVal_packParts t1 c1 h1 h2, digitsVal_packParts t2 c2 h3 h4]

/-! ## Bitwise helpers for the generator -/

theorem one_shiftLeft_eq (n : Nat) : 1 <<< n = 2 ^ n := by
  rw [Nat.shiftLeft_eq, one_mul]

theorem land_mask_eq_mod (x n : Nat) : x &&& (1 <<< n - 1) = x % 2 ^ n := by
  rw [one_shiftLeft_eq]
  exact Nat.and_pow_two_sub_one_eq_mod x n

theorem shiftLeft_or_eq_add (a b i : Nat) (h : b < 2 ^ i) :
    a <<< i ||| b = a * 2 ^ i + b := by
  apply Nat.eq_of_testBit_eq
  intro k
  rw [Nat.testBit_lor, Nat.testBit_shiftLeft, Nat.mul_comm,
    Nat.testBit_mul_pow_two_add a h k]
  rcases lt_or_le k i with hk | hk
  · simp [Nat.not_le.mpr hk, hk]
  · have hb : b.testBit k = false :=
      Nat.testBit_lt_two_pow (lt_of_lt_of_le h (Nat.pow_le_pow_right (by omega) hk))
    simp [hk, hb]

theorem getNodeId_eq (g : Scru64Generator) :
    g.getNodeId = g.prevNodeCtr / 2 ^ g.counterSize := by
  rw [Scru64Generator.getNodeId, Nat.shiftRight_eq_div_pow]

theorem renewNodeCtr_eq (g : Scru64Generator) (renew : CounterMode) (ts : Nat)
    (hr : renew g.counterSize ts g.getNodeId < 2 ^ g.counterSize) :
    g.renewNodeCtr renew ts = some (g.prevNodeCtr / 2 ^ g.counterSize * 2 ^ g.counterSize +
      renew g.counterSize ts (g.prevNodeCtr / 2 ^ g.counterSize)) := by
  have hstep : g.renewNodeCtr renew ts =
      if 1 <<< g.counterSize ≤ renew g.counterSize ts g.getNodeId then none
      else some (g.getNodeId <<< g.counterSize ||| renew g.counterSize ts g.getNodeId) := rfl
  rw [hstep, if_neg (by rw [one_shiftLeft_eq]; omega)]
  rw [shiftLeft_or_eq_add _ _ _ hr, getNodeId_eq]

theorem renewed_lt (ctr cs r : Nat) (hctr : ctr < 2 ^ 24) (hcs : cs ≤ 24)
    (hr : r < 2 ^ cs) : ctr / 2 ^ cs * 2 ^ cs + r < 2 ^ 24 := by
  have h24 : 2 ^ 24 = 2 ^ (24 - cs) * 2 ^ cs := by
    rw [← pow_add]
    congr 1
    omega
  have hdiv : ctr / 2 ^ cs < 2 ^ (24 - cs) := by
    rw [Nat.div_lt_iff_lt_mul (Nat.pos_pow_of_pos cs (by omega))]
    omega
  calc ctr / 2 ^ cs * 2 ^ cs + r < (ctr / 2 ^ cs + 1) * 2 ^ cs := by
        rw [Nat.add_mul, Nat.one_mul]
        omega
    _ ≤ 2 ^ (24 - cs) * 2 ^ cs := Nat.mul_le_mul_right _ (by omega)
    _ = 2 ^ 24 := h24.symm

theorem incr_lt (ctr cs : Nat) (hctr : ctr < 2 ^ 24) (hcs : cs ≤ 24)
    (h : ctr % 2 ^ cs < 2 ^ cs - 1) : ctr + 1 < 2 ^ 24 := by
  have hdm := Nat.div_add_mod ctr (2 ^ cs)
  have hlt := renewed_lt ctr cs (ctr % 2 ^ cs + 1) hctr hcs (by omega)
  have hcomm : 2 ^ cs * (ctr / 2 ^ cs) = ctr / 2 ^ cs * 2 ^ cs := Nat.mul_comm _ _
  omega

theorem finishMint_ok (g : Scru64Generator) (ht : g.prevTimestamp ≤ MAX_TIMESTAMP)
    (hc : g.prevNodeCtr ≤ MAX_NODE_CTR) :
    g.finishMint = (.ok ⟨packParts g.prevTimestamp g.prevNodeCtr⟩, g) := by
  rw [Scru64Generator.finishMint, fromParts_natCast, if_pos ht, if_pos hc]

theorem finishMint_err (g : Scru64Generator) (ht : MAX_TIMESTAMP < g.prevTimestamp) :
    g.finishMint = (.err .partsRange, g) := by
  rw [Scru64Generator.finishMint, fromParts_natCast, if_neg (by omega)]

/-! ## Generator step analysis -/

theorem generateOrAbortCore_unfold (g : Scru64Generator) (renew : CounterMode)
    (ms al : Nat) :
    g.generateOrAbortCore renew ms al =
      if ms / 256 ≤ 0 then (.err .timestampRange, g)
      else if 1099511627775 < al / 256 then (.err .allowanceRange, g)
      else if g.prevTimestamp < ms / 256 then
        match Scru64Generator.renewNodeCtr { g with prevTimestamp := ms / 256 } renew
          (ms / 256) with
        | none => (.err .counterMode, { g with prevTimestamp := ms / 256 })
        | some ctr =>
          Scru64Generator.finishMint { g with prevTimestamp := ms / 256, prevNodeCtr := ctr }
      else if g.prevTimestamp ≤ ms / 256 + al / 256 then
        if g.prevNodeCtr &&& (1 <<< g.counterSize - 1) < 1 <<< g.counterSize - 1 then
          Scru64Generator.finishMint { g with prevNodeCtr := g.prevNodeCtr + 1 }
        else
          match Scru64Generator.renewNodeCtr { g with prevTimestamp := g.prevTimestamp + 1 }
            renew (g.prevTimestamp + 1) with
          | none => (.err .counterMode, { g with prevTimestamp := g.prevTimestamp + 1 })
          | some ctr =>
            Scru64Generator.finishMint
              { g with prevTimestamp := g.prevTimestamp + 1, prevNodeCtr := ctr }
      else (.aborted, g) := rfl

theorem stepOkay_iff (g : Scru64Generator) (ms al : Nat) :
    stepOkay g (ms, al) = true ↔
      (1 ≤ ms / 256 ∧ al / 256 ≤ 1099511627775 ∧
        g.prevTimestamp ≤ ms / 256 + al / 256 ∧
        ms / 256 ≤ MAX_TIMESTAMP ∧ g.prevTimestamp < MAX_TIMESTAMP) := by
  simp only [stepOkay, convTs, Bool.and_eq_true, decide_eq_true_eq]
  tauto

theorem generateOrAbortCore_step (g : Scru64Generator) (renew : CounterMode)
    (hrenew : ∀ cs t n, renew cs t n < 2 ^ cs)
    (hctr : g.prevNodeCtr < 2 ^ 24) (hcs : g.counterSize ≤ 24)
    (ms al : Nat) (hok : stepOkay g (ms, al) = true) :
    ∃ id : Scru64Id,
      (g.generateOrAbortCore renew ms al).1 = .ok id ∧
      id.bytes = packParts (g.generateOrAbortCore renew ms al).2.prevTimestamp
        (g.generateOrAbortCore renew ms al).2.prevNodeCtr ∧
      (g.generateOrAbortCore renew ms al).2.counterSize = g.counterSize ∧
      (g.generateOrAbortCore renew ms al).2.prevNodeCtr < 2 ^ 24 ∧
      (g.generateOrAbortCore renew ms al).2.prevTimestamp ≤ MAX_TIMESTAMP ∧
      stepRel renew g.counterSize (ms, al) ⟨packParts g.prevTimestamp g.prevNodeCtr⟩ id ∧
      0 < id.compareTo ⟨packParts g.prevTimestamp g.prevNodeCtr⟩ := by
  obtain ⟨hts, hal, hroll, htmax, hpmax⟩ := (stepOkay_iff g ms al).mp hok
  have hMT : MAX_TIMESTAMP = 282429536480 := rfl
  have hMC : MAX_NODE_CTR = 16777215 := rfl
  have hvold : digitsVal 256 (packParts g.prevTimestamp g.prevNodeCtr) =
      g.prevTimestamp * 16777216 + g.prevNodeCtr :=
    digitsVal_packParts _ _ (by omega) (by omega)
  have htsold : Scru64Id.timestamp ⟨packParts g.prevTimestamp g.prevNodeCtr⟩ =
      g.prevTimestamp := packParts_timestamp _ _ (by omega)
  have hctrold : Scru64Id.nodeCtr ⟨packParts g.prevTimestamp g.prevNodeCtr⟩ =
      g.prevNodeCtr := packParts_nodeCtr _ _ (by omega)
  rcases Nat.lt_or_ge g.prevTimestamp (ms / 256) with hA | hB
  · -- Case A: clock advanced
    have hres : g.generateOrAbortCore renew ms al =
        Scru64Generator.finishMint { g with
          prevTimestamp := ms / 256
          prevNodeCtr := (g.prevNodeCtr / 2 ^ g.counterSize * 2 ^ g.counterSize +
            renew g.counterSize (ms / 256) (g.prevNodeCtr / 2 ^ g.counterSize)) } := by
      rw [generateOrAbortCore_unfold]
      rw [if_neg (by omega), if_neg (by omega), if_pos hA]
      rw [renewNodeCtr_eq _ renew _ (hrenew _ _ _)]
    have hnewlt : g.prevNodeCtr / 2 ^ g.counterSize * 2 ^ g.counterSize +
        renew g.counterSize (ms / 256) (g.prevNodeCtr / 2 ^ g.counterSize) < 2 ^ 24 :=
      renewed_lt _ _ _ hctr hcs (hrenew _ _ _)
    rw [finishMint_ok _ (by exact htmax)
      (by show (g.prevNodeCtr / 2 ^ g.counterSize * 2 ^ g.counterSize +
        renew g.counterSize (ms / 256) (g.prevNodeCtr / 2 ^ g.counterSize)) ≤ MAX_NODE_CTR
          omega)] at hres
    refine ⟨⟨packParts (ms / 256) (g.prevNodeCtr / 2 ^ g.counterSize * 2 ^ g.counterSize +
      renew g.counterSize (ms / 256) (g.prevNodeCtr / 2 ^ g.counterSize))⟩,
      by rw [hres], by rw [hres], by rw [hres], by rw [hres]; exact hnewlt,
      by rw [hres]; exact htmax, ?_, ?_⟩
    · right
      right
      refine ⟨?_, ?_, ?_⟩
      · rw [htsold]; exact hA
      · exact packParts_timestamp _ _ (by omega)
      · rw [packParts_nodeCtr _ _ hnewlt, hctrold,
          packParts_timestamp _ _ (by omega)]
    · rw [compareTo_packParts_pos _ _ _ _ (by omega) (by omega) (by omega) (by omega)]
      omega
  · -- Case B: clock steady or mildly behind
    have hmask : (g.prevNodeCtr &&& (1 <<< g.counterSize - 1) < 1 <<< g.counterSize - 1) ↔
        (g.prevNodeCtr % 2 ^ g.counterSize < 2 ^ g.counterSize - 1) := by
      rw [land_mask_eq_mod, one_shiftLeft_eq]
    rcases Nat.lt_or_ge (g.prevNodeCtr % 2 ^ g.counterSize) (2 ^ g.counterSize - 1)
      with hB1 | hB2
    · -- Case B1: counter increment
      have hres : g.generateOrAbortCore renew ms al =
          Scru64Generator.finishMint { g with prevNodeCtr := g.prevNodeCtr + 1 } := by
        rw [generateOrAbortCore_unfold]
        rw [if_neg (by omega), if_neg (by omega), if_neg (by omega), if_pos hroll,
          if_pos (hmask.mpr hB1)]
      have hincr : g.prevNodeCtr + 1 < 2 ^ 24 := incr_lt _ _ hctr hcs hB1
      rw [finishMint_ok _ (by show g.prevTimestamp ≤ MAX_TIMESTAMP; omega)
        (by show g.prevNodeCtr + 1 ≤ MAX_NODE_CTR; omega)] at hres
      refine ⟨⟨packParts g.prevTimestamp (g.prevNodeCtr + 1)⟩,
        by rw [hres], by rw [hres], by rw [hres], by rw [hres]; exact hincr,
        by rw [hres]; show g.prevTimestamp ≤ MAX_TIMESTAMP; omega, ?_, ?_⟩
      · left
        refine ⟨?_, ?_⟩
        · rw [htsold, packParts_timestamp _ _ (by omega)]
        · rw [packParts_nodeCtr _ _ hincr, hctrold]
      · rw [compareTo_packParts_pos _ _ _ _ (by omega) (by omega) (by omega) (by omega)]
        omega
    · -- Case B2: counter overflow, timestamp bumped by one
      have hres : g.generateOrAbortCore renew ms al =
          Scru64Generator.finishMint { g with
            prevTimestamp := g.prevTimestamp + 1
            prevNodeCtr := (g.prevNodeCtr / 2 ^ g.counterSize * 2 ^ g.counterSize +
              renew g.counterSize (g.prevTimestamp + 1)
                (g.prevNodeCtr / 2 ^ g.counterSize)) } := by
        rw [generateOrAbortCore_unfold]
        rw [if_neg (by omega), if_neg (by omega), if_neg (by omega), if_pos hroll,
          if_neg (by rw [hmask]; omega)]
        rw [renewNodeCtr_eq _ renew _ (hrenew _ _ _)]
      have hnewlt : g.prevNodeCtr / 2 ^ g.counterSize * 2 ^ g.counterSize +
          renew g.counterSize (g.prevTimestamp + 1)
            (g.prevNodeCtr / 2 ^ g.counterSize) < 2 ^ 24 :=
        renewed_lt _ _ _ hctr hcs (hrenew _ _ _)
      have hctrle : g.prevNodeCtr / 2 ^ g.counterSize * 2 ^ g.counterSize +
          renew g.counterSize (g.prevTimestamp + 1)
            (g.prevNodeCtr / 2 ^ g.counterSize) ≤ MAX_NODE_CTR := by omega
      rw [finishMint_ok _ (by show g.prevTimestamp + 1 ≤ MAX_TIMESTAMP; omega)
        (by exact hctrle)] at hres
      refine ⟨⟨packParts (g.prevTimestamp + 1)
        (g.prevNodeCtr / 2 ^ g.counterSize * 2 ^ g.counterSize +
          renew g.counterSize (g.prevTimestamp + 1) (g.prevNodeCtr / 2 ^ g.counterSize))⟩,
        by rw [hres], by rw [hres], by rw [hres], by rw [hres]; exact hnewlt,
        by rw [hres]; show g.prevTimestamp + 1 ≤ MAX_TIMESTAMP; omega, ?_, ?_⟩
      · right
        left
        refine ⟨?_, ?_⟩
        · rw [htsold, packParts_timestamp _ _ (by omega)]
        · rw [packParts_nodeCtr _ _ hnewlt, hctrold,
            packParts_timestamp _ _ (by omega)]
      · rw [compareTo_packParts_pos _ _ _ _ (by omega) (by omega) (by omega) (by omega)]
        omega

theorem runAbortCalls_spec (renew : CounterMode)
    (hrenew : ∀ cs t n, renew cs t n < 2 ^ cs) :
    ∀ (calls : List (Nat × Nat)) (g : Scru64Generator),
    g.prevNodeCtr < 2 ^ 24 → g.counterSize ≤ 24 →
    validRun renew g calls = true →
    ∃ ids : List Scru64Id,
      (runAbortCalls renew g calls).1 = ids.map GenResult.ok ∧
      ids.length = calls.length ∧
      goodTrace renew g.counterSize ⟨packParts g.prevTimestamp g.prevNodeCtr⟩
        (calls.zip ids) := by
  intro calls
  induction calls with
  | nil =>
    intro g _ _ _
    exact ⟨[], rfl, rfl, trivial⟩
  | cons call rest ih =>
    intro g hctr hcs hvalid
    rcases call with ⟨ms, al⟩
    have hv : stepOkay g (ms, al) = true ∧
        validRun renew (g.generateOrAbortCore renew ms al).2 rest = true := by
      simpa [validRun, Bool.and_eq_true] using hvalid
    obtain ⟨id, hok, hbytes, hcspres, hctr2, htmax2, hrel, hcmp⟩ :=
      generateOrAbortCore_step g renew hrenew hctr hcs ms al hv.1
    obtain ⟨ids, hres, hlen, htrace⟩ := ih (g.generateOrAbortCore renew ms al).2
      hctr2 (by omega) hv.2
    have hid : id = ⟨packParts (g.generateOrAbortCore renew ms al).2.prevTimestamp
        (g.generateOrAbortCore renew ms al).2.prevNodeCtr⟩ := by
      cases id
      simpa using hbytes
    refine ⟨id :: ids, ?_, by simpa using hlen, ?_⟩
    · have hrun : (runAbortCalls renew g ((ms, al) :: rest)).1 =
          (g.generateOrAbortCore renew ms al).1 ::
            (runAbortCalls renew (g.generateOrAbortCore renew ms al).2 rest).1 := rfl
      rw [hrun, hok, hres]
      rfl
    · rw [List.zip_cons_cons]
      show 0 < id.compareTo _ ∧ _ ∧ goodTrace renew g.counterSize id (rest.zip ids)
      refine ⟨hcmp, hrel, ?_⟩
      rw [hid]
      rw [hcspres] at htrace
      exact htrace

theorem finishMint_state (g : Scru64Generator) :
    (g.finishMint).2 = g ∧ (g.finishMint).1 ≠ .aborted := by
  rw [Scru64Generator.finishMint]
  rcases Scru64Id.fromParts (g.prevTimestamp : ℚ) (g.prevNodeCtr : ℚ) with _ | id
  · exact ⟨rfl, fun h => GenResult.noConfusion h⟩
  · exact ⟨rfl, fun h => GenResult.noConfusion h⟩

/-! ## Claim theorems -/

/-- C3: for every generator state and every `generateOrAbortCore` call whose
converted timestamp is positive, whose converted allowance is in range, and
which rolls back by more than the allowance, the call returns no value and
leaves the whole state (`prevTimestamp`, `prevNodeCtr`, `counterSize`)
unchanged, so an immediate repeat of the same call also returns no value. -/
theorem c3_rollback_abort (g : Scru64Generator) (renew : CounterMode) (ms al : Nat)
    (ht : 1 ≤ ms / 256) (hal : al / 256 ≤ 1099511627775)
    (hsig : ms / 256 + al / 256 < g.prevTimestamp) :
    g.generateOrAbortCore renew ms al = (.aborted, g) ∧
    (g.generateOrAbortCore renew ms al).2.generateOrAbortCore renew ms al =
      (.aborted, g) := by
  have habort : g.generateOrAbortCore renew ms al = (.aborted, g) := by
    rw [generateOrAbortCore_unfold]
    rw [if_neg (by omega), if_neg (by omega), if_neg (by omega), if_neg (by omega)]
  refine ⟨habort, ?_⟩
  rw [habort]
  exact habort

theorem c3_rollback_abort_witness :
    1 ≤ 2560 / 256 ∧ 2560 / 256 ≤ 1099511627775 ∧
      2560 / 256 + 2560 / 256 < (⟨100, 2752512, 16⟩ : Scru64Generator).prevTimestamp ∧
    (Scru64Generator.generateOrAbortCore ⟨100, 2752512, 16⟩ (fun _ _ _ => 0) 2560 2560 =
        (.aborted, ⟨100, 2752512, 16⟩) ∧
      (Scru64Generator.generateOrAbortCore ⟨100, 2752512, 16⟩
          (fun _ _ _ => 0) 2560 2560).2.generateOrAbortCore (fun _ _ _ => 0) 2560 2560 =
        (.aborted, ⟨100, 2752512, 16⟩)) :=
  ⟨by decide, by decide, by decide,
    c3_rollback_abort ⟨100, 2752512, 16⟩ (fun _ _ _ => 0) 2560 2560
      (by decide) (by decide) (by decide)⟩

/-- C10: when the converted timestamp exceeds the maximum timestamp
`282429536480` and the stored `prevTimestamp`, `generateOrAbortCore` signals
the `RangeError` raised by `fromParts` — but only after `prevTimestamp` and
`prevNodeCtr` have been overwritten with the out-of-range timestamp and a
renewed counter: the state is mutated despite the error. -/
theorem c10_out_of_range_mutates (g : Scru64Generator) (renew : CounterMode)
    (hrenew : ∀ cs t n, renew cs t n < 2 ^ cs)
    (ms al : Nat) (hbig : MAX_TIMESTAMP < ms / 256)
    (hgt : g.prevTimestamp < ms / 256) (hal : al / 256 ≤ 1099511627775) :
    g.generateOrAbortCore renew ms al =
      (.err .partsRange,
        { g with
          prevTimestamp := ms / 256
          prevNodeCtr := (g.prevNodeCtr / 2 ^ g.counterSize * 2 ^ g.counterSize +
            renew g.counterSize (ms / 256) (g.prevNodeCtr / 2 ^ g.counterSize)) }) := by
  have hMT : MAX_TIMESTAMP = 282429536480 := rfl
  have hres : g.generateOrAbortCore renew ms al =
      Scru64Generator.finishMint { g with
        prevTimestamp := ms / 256
        prevNodeCtr := (g.prevNodeCtr / 2 ^ g.counterSize * 2 ^ g.counterSize +
          renew g.counterSize (ms / 256) (g.prevNodeCtr / 2 ^ g.counterSize)) } := by
    rw [generateOrAbortCore_unfold]
    rw [if_neg (by omega), if_neg (by omega), if_pos hgt]
    rw [renewNodeCtr_eq _ renew _ (hrenew _ _ _)]
  rw [finishMint_err _ (by show MAX_TIMESTAMP < ms / 256; exact hbig)] at hres
  exact hres

theorem c10_out_of_range_mutates_witness :
    MAX_TIMESTAMP < 72301961339136 / 256 ∧
      (⟨0, 2752512, 16⟩ : Scru64Generator).prevTimestamp < 72301961339136 / 256 ∧
    Scru64Generator.generateOrAbortCore ⟨0, 2752512, 16⟩ (fun _ _ _ => 0)
        72301961339136 0 =
      (.err .partsRange, ⟨72301961339136 / 256, 2752512 / 2 ^ 16 * 2 ^ 16 + 0, 16⟩) :=
  ⟨by decide, by decide, by
    have h := c10_out_of_range_mutates ⟨0, 2752512, 16⟩ (fun _ _ _ => 0)
      (fun cs t n => Nat.pos_pow_of_pos cs (by decide)) 72301961339136 0
      (by decide) (by decide) (by decide)
    exact h⟩

/-- C2: with a positive converted timestamp not exceeding the stored
`prevTimestamp` and an in-range allowance, `generateOrAbortCore` continues
with the stored `prevTimestamp` (counter increment, or timestamp bump with
counter renewal on overflow) exactly when
`convertedTimestamp + allowance >= prevTimestamp` (inclusive boundary), and
returns no value exactly when `convertedTimestamp + allowance <
prevTimestamp`. -/
theorem c2_inclusive_boundary (g : Scru64Generator) (renew : CounterMode)
    (hrenew : ∀ cs t n, renew cs t n < 2 ^ cs) (ms al : Nat)
    (ht : 1 ≤ ms / 256) (hle : ms / 256 ≤ g.prevTimestamp)
    (hal : al / 256 ≤ 1099511627775) :
    (g.prevTimestamp ≤ ms / 256 + al / 256 →
      (g.generateOrAbortCore renew ms al).1 ≠ .aborted ∧
      ((g.prevNodeCtr % 2 ^ g.counterSize < 2 ^ g.counterSize - 1 ∧
        (g.generateOrAbortCore renew ms al).2 =
          { g with prevNodeCtr := g.prevNodeCtr + 1 }) ∨
       (2 ^ g.counterSize - 1 ≤ g.prevNodeCtr % 2 ^ g.counterSize ∧
        (g.generateOrAbortCore renew ms al).2 =
          { g with
            prevTimestamp := g.prevTimestamp + 1
            prevNodeCtr := (g.prevNodeCtr / 2 ^ g.counterSize * 2 ^ g.counterSize +
              renew g.counterSize (g.prevTimestamp + 1)
                (g.prevNodeCtr / 2 ^ g.counterSize)) }))) ∧
    (ms / 256 + al / 256 < g.prevTimestamp →
      g.generateOrAbortCore renew ms al = (.aborted, g)) := by
  have hmask : (g.prevNodeCtr &&& (1 <<< g.counterSize - 1) < 1 <<< g.counterSize - 1) ↔
      (g.prevNodeCtr % 2 ^ g.counterSize < 2 ^ g.counterSize - 1) := by
    rw [land_mask_eq_mod, one_shiftLeft_eq]
  constructor
  · intro hroll
    rcases Nat.lt_or_ge (g.prevNodeCtr % 2 ^ g.counterSize) (2 ^ g.counterSize - 1)
      with hB1 | hB2
    · have hres : g.generateOrAbortCore renew ms al =
          Scru64Generator.finishMint { g with prevNodeCtr := g.prevNodeCtr + 1 } := by
        rw [generateOrAbortCore_unfold]
        rw [if_neg (by omega), if_neg (by omega), if_neg (by omega), if_pos hroll,
          if_pos (hmask.mpr hB1)]
      rw [hres]
      exact ⟨(finishMint_state _).2, Or.inl ⟨hB1, (finishMint_state _).1⟩⟩
    · have hres : g.generateOrAbortCore renew ms al =
          Scru64Generator.finishMint { g with
            prevTimestamp := g.prevTimestamp + 1
            prevNodeCtr := (g.prevNodeCtr / 2 ^ g.counterSize * 2 ^ g.counterSize +
              renew g.counterSize (g.prevTimestamp + 1)
                (g.prevNodeCtr / 2 ^ g.counterSize)) } := by
        rw [generateOrAbortCore_unfold]
        rw [if_neg (by omega), if_neg (by omega), if_neg (by omega), if_pos hroll,
          if_neg (by rw [hmask]; omega)]
        rw [renewNodeCtr_eq _ renew _ (hrenew _ _ _)]
      rw [hres]
      exact ⟨(finishMint_state _).2, Or.inr ⟨hB2, (finishMint_state _).1⟩⟩
  · intro hsig
    rw [generateOrAbortCore_unfold]
    rw [if_neg (by omega), if_neg (by omega), if_neg (by omega), if_neg (by omega)]

theorem c2_inclusive_boundary_witness :
    1 ≤ 25600 / 256 ∧ 25600 / 256 ≤ (⟨100, 2752512, 16⟩ : Scru64Generator).prevTimestamp ∧
      0 / 256 ≤ 1099511627775 ∧
      (⟨100, 2752512, 16⟩ : Scru64Generator).prevTimestamp ≤ 25600 / 256 + 0 / 256 ∧
    ((Scru64Generator.generateOrAbortCore ⟨100, 2752512, 16⟩
        (fun _ _ _ => 0) 25600 0).1 ≠ .aborted) := by
  have h := c2_inclusive_boundary ⟨100, 2752512, 16⟩ (fun _ _ _ => 0)
    (fun cs t n => Nat.pos_pow_of_pos cs (by decide)) 25600 0
    (by decide) (by decide) (by decide)
  exact ⟨by decide, by decide, by decide, by decide, (h.1 (by decide)).1⟩

/-- C4: on a significant rollback (with in-range arguments and a state whose
fields are in range), `generateOrResetCore` overwrites `prevTimestamp` with
the smaller converted timestamp, reinitializes the counter, and returns an
identifier whose `timestamp` field equals that converted timestamp; that
identifier compares less than the identifier encoding the pre-rollback
state. -/
theorem c4_rollback_reset (g : Scru64Generator) (renew : CounterMode)
    (hrenew : ∀ cs t n, renew cs t n < 2 ^ cs)
    (hctr : g.prevNodeCtr < 2 ^ 24) (hcs : g.counterSize ≤ 24)
    (hT : g.prevTimestamp ≤ MAX_TIMESTAMP)
    (ms al : Nat) (ht : 1 ≤ ms / 256) (hmax : ms / 256 ≤ MAX_TIMESTAMP)
    (hal : al / 256 ≤ 1099511627775)
    (hsig : ms / 256 + al / 256 < g.prevTimestamp) :
    (g.generateOrResetCore renew ms al).2.prevTimestamp = ms / 256 ∧
    (g.generateOrResetCore renew ms al).2.prevNodeCtr =
      g.prevNodeCtr / 2 ^ g.counterSize * 2 ^ g.counterSize +
        renew g.counterSize (ms / 256) (g.prevNodeCtr / 2 ^ g.counterSize) ∧
    ∃ id : Scru64Id, (g.generateOrResetCore renew ms al).1 = .ok id ∧
      id.timestamp = ms / 256 ∧
      id.compareTo ⟨packParts g.prevTimestamp g.prevNodeCtr⟩ < 0 := by
  have hMT : MAX_TIMESTAMP = 282429536480 := rfl
  have habort : g.generateOrAbortCore renew ms al = (.aborted, g) := by
    rw [generateOrAbortCore_unfold]
    rw [if_neg (by omega), if_neg (by omega), if_neg (by omega), if_neg (by omega)]
  have hnewlt : g.prevNodeCtr / 2 ^ g.counterSize * 2 ^ g.counterSize +
      renew g.counterSize (ms / 256) (g.prevNodeCtr / 2 ^ g.counterSize) < 2 ^ 24 :=
    renewed_lt _ _ _ hctr hcs (hrenew _ _ _)
  have hMC : MAX_NODE_CTR = 16777215 := rfl
  have hctrle : g.prevNodeCtr / 2 ^ g.counterSize * 2 ^ g.counterSize +
      renew g.counterSize (ms / 256) (g.prevNodeCtr / 2 ^ g.counterSize) ≤
        MAX_NODE_CTR := by omega
  have hres : g.generateOrResetCore renew ms al =
      Scru64Generator.finishMint { g with
        prevTimestamp := ms / 256
        prevNodeCtr := (g.prevNodeCtr / 2 ^ g.counterSize * 2 ^ g.counterSize +
          renew g.counterSize (ms / 256) (g.prevNodeCtr / 2 ^ g.counterSize)) } := by
    have hmid : g.generateOrResetCore renew ms al =
        match Scru64Generator.renewNodeCtr { g with prevTimestamp := ms / 256 } renew
          (ms / 256) with
        | none => (.err .counterMode, { g with prevTimestamp := ms / 256 })
        | some ctr =>
          Scru64Generator.finishMint { g with prevTimestamp := ms / 256, prevNodeCtr := ctr } := by
      rw [Scru64Generator.generateOrResetCore, habort]
    rw [hmid, renewNodeCtr_eq _ renew _ (hrenew _ _ _)]
  rw [finishMint_ok _ (by show ms / 256 ≤ MAX_TIMESTAMP; omega)
    (by exact hctrle)] at hres
  refine ⟨by rw [hres], by rw [hres], ⟨packParts (ms / 256)
    (g.prevNodeCtr / 2 ^ g.counterSize * 2 ^ g.counterSize +
      renew g.counterSize (ms / 256) (g.prevNodeCtr / 2 ^ g.counterSize))⟩,
    by rw [hres], packParts_timestamp _ _ (by omega), ?_⟩
  rw [compareTo_packParts_neg _ _ _ _ (by omega) (by omega) (by omega) (by omega)]
  omega

theorem c4_rollback_reset_witness :
    (⟨100, 2752512, 16⟩ : Scru64Generator).prevNodeCtr < 2 ^ 24 ∧
      (⟨100, 2752512, 16⟩ : Scru64Generator).counterSize ≤ 24 ∧
      (⟨100, 2752512, 16⟩ : Scru64Generator).prevTimestamp ≤ MAX_TIMESTAMP ∧
      1 ≤ 2560 / 256 ∧ 2560 / 256 ≤ MAX_TIMESTAMP ∧ 2560 / 256 ≤ 1099511627775 ∧
      2560 / 256 + 2560 / 256 < (⟨100, 2752512, 16⟩ : Scru64Generator).prevTimestamp ∧
    ((Scru64Generator.generateOrResetCore ⟨100, 2752512, 16⟩
        (fun _ _ _ => 0) 2560 2560).2.prevTimestamp = 2560 / 256 ∧
      ∃ id : Scru64Id,
        (Scru64Generator.generateOrResetCore ⟨100, 2752512, 16⟩
          (fun _ _ _ => 0) 2560 2560).1 = .ok id ∧
        id.timestamp = 2560 / 256 ∧
        id.compareTo ⟨packParts 100 2752512⟩ < 0) := by
  have h := c4_rollback_reset ⟨100, 2752512, 16⟩ (fun _ _ _ => 0)
    (fun cs t n => Nat.pos_pow_of_pos cs (by decide)) (by decide) (by decide)
    (by decide) 2560 2560 (by decide) (by decide) (by decide) (by decide)
  exact ⟨by decide, by decide, by decide, by decide, by decide, by decide, by decide,
    h.1, h.2.2⟩

/-- C1 (amended): for every generator, every in-range counter policy, and
every sequence of `generateOrAbortCore` calls whose converted timestamps are
positive and never fall more than the allowance below the stored
`prevTimestamp` (and which stay within the timestamp range), every call
returns an identifier, each returned identifier compares strictly greater
than the previously returned one, and each step either leaves the timestamp
field unchanged with the counter portion exactly `+1`, or increases the
timestamp field by exactly 1 with the counter reinitialized, or — when the
converted timestamp exceeds the stored `prevTimestamp` — jumps the timestamp
field to the converted timestamp (possibly by more than 1) with the counter
reinitialized. -/
theorem c1_monotonic_run (renew : CounterMode)
    (hrenew : ∀ cs t n, renew cs t n < 2 ^ cs)
    (g : Scru64Generator) (hctr : g.prevNodeCtr < 2 ^ 24) (hcs : g.counterSize ≤ 24)
    (calls : List (Nat × Nat)) (hvalid : validRun renew g calls = true) :
    ∃ ids : List Scru64Id,
      (runAbortCalls renew g calls).1 = ids.map GenResult.ok ∧
      ids.length = calls.length ∧
      goodTraceTop renew g.counterSize (calls.zip ids) := by
  obtain ⟨ids, h1, h2, h3⟩ := runAbortCalls_spec renew hrenew calls g hctr hcs hvalid
  refine ⟨ids, h1, h2, ?_⟩
  cases calls with
  | nil =>
    cases ids with
    | nil => trivial
    | cons i l => simp at h2
  | cons c rest =>
    cases ids with
    | nil => simp at h2
    | cons id ids0 =>
      rw [List.zip_cons_cons] at h3 ⊢
      show goodTrace renew g.counterSize id (rest.zip ids0)
      exact h3.2.2

theorem c1_monotonic_run_witness :
    (∀ cs t n : Nat, (fun _ _ _ => 0 : CounterMode) cs t n < 2 ^ cs) ∧
      (⟨0, 2752512, 16⟩ : Scru64Generator).prevNodeCtr < 2 ^ 24 ∧
      (⟨0, 2752512, 16⟩ : Scru64Generator).counterSize ≤ 24 ∧
      validRun (fun _ _ _ => 0) ⟨0, 2752512, 16⟩
        [(2560, 10000), (2560, 10000), (3072, 10000)] = true ∧
    ∃ ids : List Scru64Id,
      (runAbortCalls (fun _ _ _ => 0) ⟨0, 2752512, 16⟩
        [(2560, 10000), (2560, 10000), (3072, 10000)]).1 = ids.map GenResult.ok ∧
      ids.length = 3 ∧
      goodTraceTop (fun _ _ _ => 0) 16
        ([((2560 : Nat), (10000 : Nat)), (2560, 10000), (3072, 10000)].zip ids) :=
  ⟨fun cs t n => Nat.pos_pow_of_pos cs (by decide), by decide, by decide, by decide,
    c1_monotonic_run (fun _ _ _ => 0) (fun cs t n => Nat.pos_pow_of_pos cs (by decide))
      ⟨0, 2752512, 16⟩ (by decide) (by decide)
      [(2560, 10000), (2560, 10000), (3072, 10000)] (by decide)⟩

/-- C1 counterexample: a two-call run of `generateOrAbortCore` on a fresh
node-42/size-8 generator, with converted timestamps 10 then 12 — positive and
never more than the allowance below the stored `prevTimestamp`, so no call
aborts — returns identifiers whose timestamp fields are 10 and 12: the second
step neither leaves the timestamp unchanged (with counter `+1`) nor increases
it by exactly 1, refuting the claim's two-case step characterization. -/
theorem c1_counterexample :
    validRun (fun _ _ _ => 0) ⟨0, 2752512, 16⟩ [(2560, 10000), (3072, 10000)] = true ∧
    (runAbortCalls (fun _ _ _ => 0) ⟨0, 2752512, 16⟩ [(2560, 10000), (3072, 10000)]).1 =
      [GenResult.ok ⟨packParts 10 2752512⟩, GenResult.ok ⟨packParts 12 2752512⟩] ∧
    ¬ ((Scru64Id.timestamp ⟨packParts 12 2752512⟩ =
          Scru64Id.timestamp ⟨packParts 10 2752512⟩ ∧
        Scru64Id.nodeCtr ⟨packParts 12 2752512⟩ =
          Scru64Id.nodeCtr ⟨packParts 10 2752512⟩ + 1) ∨
       Scru64Id.timestamp ⟨packParts 12 2752512⟩ =
         Scru64Id.timestamp ⟨packParts 10 2752512⟩ + 1) := by
  refine ⟨by decide, by decide, by decide⟩

/-- C5: every 12-character string over the Base36 alphabet (`0-9`, `a-z`,
`A-Z`, case-insensitive) is accepted by `fromString`, and converting the
result back with `toString` yields the input lowercased; every string of a
different length or containing a character outside the alphabet (such as
`+`, `-`, space, or underscore) is rejected with a syntax error (`none`). -/
theorem c5_fromString_roundtrip (s : List Char) :
    (s.length = 12 → (∀ c ∈ s, isBase36Digit c = true) →
      ∃ id : Scru64Id, Scru64Id.fromString s = some id ∧
        id.toString = s.map Char.toLower) ∧
    ((s.length ≠ 12 ∨ ∃ c ∈ s, isBase36Digit c = false) →
      Scru64Id.fromString s = none) :=
  ⟨fun h1 h2 => fromString_toString_roundTrip s h1 h2, fromString_none s⟩

theorem c5_fromString_roundtrip_witness :
    (("0U375nxqh5cq").toList.length = 12 ∧
      (∀ c ∈ ("0U375nxqh5cq").toList, isBase36Digit c = true)) ∧
    (∃ id : Scru64Id, Scru64Id.fromString (("0U375nxqh5cq").toList) = some id ∧
      id.toString = ("0U375nxqh5cq").toList.map Char.toLower) ∧
    Scru64Id.fromString (("0u375nxqh5c+").toList) = none :=
  ⟨⟨by decide, by decide⟩,
    (c5_fromString_roundtrip (("0U375nxqh5cq").toList)).1 (by decide) (by decide),
    (c5_fromString_roundtrip (("0u375nxqh5c+").toList)).2
      (Or.inr ⟨'+', by decide, by decide⟩)⟩

/-- C7: `fromParts` succeeds on every integer pair with the timestamp in
`[0, 282429536480]` and the combined node-counter in `[0, 16777215]`, and the
`timestamp` and `nodeCtr` getters of the result return exactly the inputs;
any negative, too-large, or non-integral argument is rejected with a range
error (`none`). -/
theorem c7_fromParts_getters :
    (∀ tn cn : Nat, tn ≤ MAX_TIMESTAMP → cn ≤ MAX_NODE_CTR →
      ∃ id : Scru64Id, Scru64Id.fromParts (tn : ℚ) (cn : ℚ) = some id ∧
        id.timestamp = tn ∧ id.nodeCtr = cn) ∧
    (∀ t c : ℚ, (t < 0 ∨ (MAX_TIMESTAMP : ℚ) < t ∨ ¬ t.isInt = true ∨
        c < 0 ∨ (MAX_NODE_CTR : ℚ) < c ∨ ¬ c.isInt = true) →
      Scru64Id.fromParts t c = none) := by
  have hMT : MAX_TIMESTAMP = 282429536480 := rfl
  have hMC : MAX_NODE_CTR = 16777215 := rfl
  constructor
  · intro tn cn h1 h2
    refine ⟨⟨packParts tn cn⟩, ?_, packParts_timestamp _ _ (by omega),
      packParts_nodeCtr _ _ (by omega)⟩
    rw [fromParts_natCast, if_pos h1, if_pos h2]
  · intro t c h
    rw [Scru64Id.fromParts]
    by_cases h1 : t < 0 ∨ (MAX_TIMESTAMP : ℚ) < t ∨ ¬ t.isInt = true
    · rw [if_pos h1]
    · have hc : c < 0 ∨ (MAX_NODE_CTR : ℚ) < c ∨ ¬ c.isInt = true := by
        rcases h with h | h | h | h | h | h
        · exact absurd (Or.inl h) h1
        · exact absurd (Or.inr (Or.inl h)) h1
        · exact absurd (Or.inr (Or.inr h)) h1
        · exact Or.inl h
        · exact Or.inr (Or.inl h)
        · exact Or.inr (Or.inr h)
      rw [if_neg h1, if_pos hc]

theorem c7_fromParts_getters_witness :
    (∃ id : Scru64Id, Scru64Id.fromParts ((6557084606 : Nat) : ℚ)
        ((2777946 : Nat) : ℚ) = some id ∧
      id.timestamp = 6557084606 ∧ id.nodeCtr = 2777946) ∧
    Scru64Id.fromParts (mkRat 5 2) 0 = none ∧
    Scru64Id.fromParts (-1 : ℚ) 0 = none ∧
    Scru64Id.fromParts 0 ((16777216 : Nat) : ℚ) = none :=
  ⟨c7_fromParts_getters.1 6557084606 2777946 (by decide) (by decide),
    c7_fromParts_getters.2 (mkRat 5 2) 0 (Or.inr (Or.inr (Or.inl (by decide)))),
    c7_fromParts_getters.2 (-1 : ℚ) 0 (Or.inl (by decide)),
    c7_fromParts_getters.2 0 ((16777216 : Nat) : ℚ)
      (Or.inr (Or.inr (Or.inr (Or.inr (Or.inl (by decide))))))⟩

/-- C8: `ofInner` succeeds exactly on 8-byte buffers whose big-endian value
is at most `36 ^ 12 - 1`, returning an identifier holding the very same
bytes, and rejects with a range error (`none`) any buffer of a different
length and any 8-byte buffer whose value exceeds the maximum. -/
theorem c8_ofInner (bytes : List Nat) (hb : ∀ x ∈ bytes, x < 256) :
    (bytes.length ≠ 8 → Scru64Id.ofInner bytes = none) ∧
    (bytes.length = 8 →
      (digitsVal 256 bytes ≤ 36 ^ 12 - 1 → Scru64Id.ofInner bytes = some ⟨bytes⟩) ∧
      (36 ^ 12 - 1 < digitsVal 256 bytes → Scru64Id.ofInner bytes = none)) := by
  constructor
  · intro hlen
    rw [Scru64Id.ofInner, if_pos hlen]
  · intro hlen
    have hcmp := checkMaxBytes_iff_cmp bytes MAX_SCRU64_BYTES
    have hposiff := cmpBytes_pos_iff 256 bytes MAX_SCRU64_BYTES
      (by rw [hlen]; decide) hb (by decide)
    have hmaxval : digitsVal 256 MAX_SCRU64_BYTES = 36 ^ 12 - 1 := by decide
    rw [hmaxval] at hposiff
    have hkey : checkMaxBytes bytes MAX_SCRU64_BYTES = true ↔
        digitsVal 256 bytes ≤ 36 ^ 12 - 1 := by
      rw [hcmp]
      constructor
      · intro hne
        by_contra hgt
        push_neg at hgt
        exact hne (hposiff.mpr hgt)
      · intro hle h1
        rw [hposiff] at h1
        omega
    constructor
    · intro hle
      rw [Scru64Id.ofInner, if_neg (by omega), if_pos (hkey.mpr hle)]
    · intro hgt
      rw [Scru64Id.ofInner, if_neg (by omega),
        if_neg (fun hck => absurd (hkey.mp hck) (by omega))]

theorem c8_ofInner_witness :
    (∀ x ∈ [65, 194, 28, 184, 224, 255, 255, 255], x < 256) ∧
    Scru64Id.ofInner [65, 194, 28, 184, 224, 255, 255, 255] =
      some ⟨[65, 194, 28, 184, 224, 255, 255, 255]⟩ ∧
    Scru64Id.ofInner [0, 0, 0, 0, 0, 0, 0] = none ∧
    Scru64Id.ofInner [255, 255, 255, 255, 255, 255, 255, 255] = none :=
  ⟨by decide,
    ((c8_ofInner [65, 194, 28, 184, 224, 255, 255, 255] (by decide)).2 (by decide)).1
      (by decide),
    (c8_ofInner [0, 0, 0, 0, 0, 0, 0] (by decide)).1 (by decide),
    ((c8_ofInner [255, 255, 255, 255, 255, 255, 255, 255] (by decide)).2 (by decide)).2
      (by decide)⟩

/-- C6: for identifiers built via `fromParts`, the part-wise lexicographic
order (`timestamp` first, then `nodeCtr`) implies that `compareTo` is
negative and that the canonical strings compare in the same order under
lexicographic string comparison; and the two 64-bit values are equal exactly
when `compareTo` returns zero. -/
theorem c6_ordering (t1 c1 t2 c2 : Nat)
    (h1 : t1 ≤ MAX_TIMESTAMP) (h2 : c1 ≤ MAX_NODE_CTR)
    (h3 : t2 ≤ MAX_TIMESTAMP) (h4 : c2 ≤ MAX_NODE_CTR) :
    ∃ a b : Scru64Id,
      Scru64Id.fromParts (t1 : ℚ) (c1 : ℚ) = some a ∧
      Scru64Id.fromParts (t2 : ℚ) (c2 : ℚ) = some b ∧
      ((t1 < t2 ∨ (t1 = t2 ∧ c1 < c2)) →
        a.compareTo b < 0 ∧ lexLtChars a.toString b.toString = true) ∧
      (digitsVal 256 a.bytes = digitsVal 256 b.bytes ↔ a.compareTo b = 0) := by
  have hMT : MAX_TIMESTAMP = 282429536480 := rfl
  have hMC : MAX_NODE_CTR = 16777215 := rfl
  have h36 : (36 : Nat) ^ 12 = 4738381338321616896 := by norm_num
  have hv1 : digitsVal 256 (packParts t1 c1) = t1 * 16777216 + c1 :=
    digitsVal_packParts _ _ (by omega) (by omega)
  have hv2 : digitsVal 256 (packParts t2 c2) = t2 * 16777216 + c2 :=
    digitsVal_packParts _ _ (by omega) (by omega)
  have hmono : ∀ x, x < 36 → ∀ y, y < 36 →
      (x < y ↔ DIGITS.getD x ' ' < DIGITS.getD y ' ') := by decide
  refine ⟨⟨packParts t1 c1⟩, ⟨packParts t2 c2⟩, ?_, ?_, ?_, ?_⟩
  · rw [fromParts_natCast, if_pos h1, if_pos h2]
  · rw [fromParts_natCast, if_pos h3, if_pos h4]
  · intro hlt
    have hvlt : t1 * 16777216 + c1 < t2 * 16777216 + c2 := by omega
    constructor
    · rw [compareTo_packParts_neg _ _ _ _ (by omega) (by omega) (by omega) (by omega)]
      exact hvlt
    · obtain ⟨ds1, hs1, hl1, hd1, hval1⟩ := toString_spec ⟨packParts t1 c1⟩
        (packParts_length _ _) (packParts_lt256 _ _) (by rw [hv1]; omega)
      obtain ⟨ds2, hs2, hl2, hd2, hval2⟩ := toString_spec ⟨packParts t2 c2⟩
        (packParts_length _ _) (packParts_lt256 _ _) (by rw [hv2]; omega)
      rw [hs1, hs2]
      rw [lexLtChars_map_iff 36 _ hmono ds1 ds2 (by omega) hd1 hd2]
      rw [hval1, hval2]
      show digitsVal 256 (packParts t1 c1) < digitsVal 256 (packParts t2 c2)
      omega
  · have hzero := compareTo_zero_iff ⟨packParts t1 c1⟩ ⟨packParts t2 c2⟩
      (by rw [packParts_length, packParts_length]) (packParts_lt256 _ _)
      (packParts_lt256 _ _)
    exact hzero.symm

theorem c6_ordering_witness :
    (6557084606 : Nat) ≤ MAX_TIMESTAMP ∧ (2777946 : Nat) ≤ MAX_NODE_CTR ∧
      (6557084607 : Nat) ≤ MAX_TIMESTAMP ∧ (0 : Nat) ≤ MAX_NODE_CTR ∧
    ∃ a b : Scru64Id,
      Scru64Id.fromParts ((6557084606 : Nat) : ℚ) ((2777946 : Nat) : ℚ) = some a ∧
      Scru64Id.fromParts ((6557084607 : Nat) : ℚ) ((0 : Nat) : ℚ) = some b ∧
      ((6557084606 < 6557084607 ∨ (6557084606 = 6557084607 ∧ 2777946 < 0)) →
        a.compareTo b < 0 ∧ lexLtChars a.toString b.toString = true) ∧
      (digitsVal 256 a.bytes = digitsVal 256 b.bytes ↔ a.compareTo b = 0) :=
  ⟨by decide, by decide, by decide, by decide,
    c6_ordering 6557084606 2777946 6557084607 0
      (by decide) (by decide) (by decide) (by decide)⟩

/-- C9 (amended): a node-spec string that does not match the grammar fails
with a syntax error; a grammatically well-formed string whose numeric fields
are out of range (`nodeIdSize` outside `[1, 23]`, or `nodeId` not fitting in
`nodeIdSize` bits) also fails with a syntax error, because the constructor
adopts the syntax-error kind for every string-spec failure; and parsing
`"42/8"` or `"0x2a/8"` yields a generator with node id 42 and node-id size 8
whose node spec renders back as `"42/8"`. -/
theorem c9_node_spec_parsing :
    (∀ s : List Char, matchesNodeSpecGrammar s = false →
      Scru64Generator.ofNodeSpecString s = .error .synErr) ∧
    (∀ (s p q : List Char), splitSlash s = some (p, q) →
      matchesNodeSpecGrammar s = true →
      (parseDec q < 1 ∨ NODE_CTR_SIZE ≤ parseDec q ∨
        (matchesPrevAlt p = false ∧ 1 <<< parseDec q ≤ parseIntJS p)) →
      Scru64Generator.ofNodeSpecString s = .error .synErr) ∧
    (Scru64Generator.ofNodeSpecString (("42/8").toList) = .ok ⟨0, 42 <<< 16, 16⟩ ∧
      Scru64Generator.ofNodeSpecString (("0x2a/8").toList) = .ok ⟨0, 42 <<< 16, 16⟩ ∧
      Scru64Generator.getNodeId ⟨0, 42 <<< 16, 16⟩ = 42 ∧
      Scru64Generator.getNodeIdSize ⟨0, 42 <<< 16, 16⟩ = 8 ∧
      Scru64Generator.getNodeSpec ⟨0, 42 <<< 16, 16⟩ = ("42/8").toList) := by
  refine ⟨?_, ?_, by rfl, by rfl, by decide, by decide, by decide⟩
  · intro s hfalse
    rcases hsplit : splitSlash s with _ | ⟨p, q⟩
    · simp only [Scru64Generator.ofNodeSpecString, hsplit]
    · simp only [matchesNodeSpecGrammar, hsplit] at hfalse
      by_cases hq : (1 ≤ q.length && q.length ≤ 3 && q.all isDecDigit) = true
      · rw [Bool.and_eq_true, Bool.and_eq_true] at hq
        by_cases hprev : matchesPrevAlt p = true
        · simp [hprev, hq.1.1, hq.1.2, hq.2] at hfalse
        · by_cases hid : matchesIdAlt p = true
          · simp [hid, hq.1.1, hq.1.2, hq.2] at hfalse
          · simp only [Scru64Generator.ofNodeSpecString, hsplit]
            rw [if_neg (fun hC => hC (by
              rw [Bool.and_eq_true, Bool.and_eq_true]
              exact hq))]
            rw [if_neg hprev, if_neg hid]
      · simp only [Scru64Generator.ofNodeSpecString, hsplit]
        rw [if_pos (fun hC => hq (by
          rw [Bool.and_eq_true, Bool.and_eq_true] at hC
          rw [Bool.and_eq_true, Bool.and_eq_true]
          exact hC))]
  · intro s p q hsplit hgram hbad
    simp only [matchesNodeSpecGrammar, hsplit] at hgram
    rw [Bool.and_eq_true, Bool.and_eq_true, Bool.and_eq_true] at hgram
    have hq : (1 ≤ q.length && q.length ≤ 3 && q.all isDecDigit) = true := by
      rw [Bool.and_eq_true, Bool.and_eq_true]
      exact ⟨⟨hgram.1.1.2, hgram.1.2⟩, hgram.2⟩
    simp only [Scru64Generator.ofNodeSpecString, hsplit]
    rw [if_neg (fun hC => hC hq)]
    by_cases hprev : matchesPrevAlt p = true
    · rw [if_pos hprev]
      rcases hfs : Scru64Id.fromString p with _ | np
      · rfl
      · have hsize : parseDec q < 1 ∨ NODE_CTR_SIZE ≤ parseDec q := by
          rcases hbad with h | h | h
          · exact Or.inl h
          · exact Or.inr h
          · rw [hprev] at h
            exact absurd h.1 (by simp)
        show (if parseDec q < 1 ∨ NODE_CTR_SIZE ≤ parseDec q then
            (Except.error SpecErr.synErr : Except SpecErr Scru64Generator)
          else Except.ok { prevTimestamp := np.timestamp
                           prevNodeCtr := np.nodeCtr
                           counterSize := NODE_CTR_SIZE - parseDec q }) =
          Except.error SpecErr.synErr
        rw [if_pos hsize]
    · rw [if_neg hprev]
      have hid : matchesIdAlt p = true := by
        rcases Bool.or_eq_true_iff.mp hgram.1.1.1 with h | h
        · exact absurd h hprev
        · exact h
      rw [if_pos hid]
      rcases Nat.lt_or_ge (parseDec q) 1 with hs | hs1
      · rw [if_pos (Or.inl hs)]
      rcases Nat.lt_or_ge (parseDec q) NODE_CTR_SIZE with hs2 | hs2
      · have hbig : 1 <<< parseDec q ≤ parseIntJS p := by
          rcases hbad with h | h | h
          · omega
          · omega
          · exact h.2
        rw [if_neg (by omega), if_pos hbig]
      · rw [if_pos (Or.inr hs2)]

theorem c9_node_spec_parsing_witness :
    matchesNodeSpecGrammar (("ab/8").toList) = false ∧
    Scru64Generator.ofNodeSpecString (("ab/8").toList) = .error .synErr ∧
    splitSlash (("0/24").toList) = some (("0").toList, ("24").toList) ∧
    matchesNodeSpecGrammar (("0/24").toList) = true ∧
    NODE_CTR_SIZE ≤ parseDec (("24").toList) ∧
    Scru64Generator.ofNodeSpecString (("0/24").toList) = .error .synErr :=
  ⟨by decide, c9_node_spec_parsing.1 (("ab/8").toList) (by decide),
    by decide, by decide, by decide,
    c9_node_spec_parsing.2.1 (("0/24").toList) (("0").toList) (("24").toList)
      (by decide) (by decide) (Or.inr (Or.inl (by decide)))⟩

/-- C9 counterexample: `"0/24"` matches the node-spec grammar, and its
`nodeIdSize` field 24 is outside `[1, 23]`, yet the constructor fails with a
`SyntaxError` (the kind adopted for string specs) rather than the
`RangeError` the claim asserts. -/
theorem c9_counterexample :
    matchesNodeSpecGrammar (("0/24").toList) = true ∧
    Scru64Generator.ofNodeSpecString (("0/24").toList) = .error SpecErr.synErr ∧
    ¬ Scru64Generator.ofNodeSpecString (("0/24").toList) = .error SpecErr.rngErr := by
  refine ⟨by decide, by rfl, ?_⟩
  intro h
  rw [show Scru64Generator.ofNodeSpecString (("0/24").toList) =
    .error SpecErr.synErr from rfl] at h
  injection h with h2
  exact SpecErr.noConfusion h2
